import Mathlib

set_option maxRecDepth 1000000

/-!
Verification development for the miniVSFS tools (mkfs_builder / mkfs_adder).

The definitions below are a shallow embedding of the C sources
`minivsfs.h`, `minivsfs_utils.c`, `mkfs_builder.c` and `mkfs_adder.c`.
Machine integers are modelled as `Nat` with explicit `% 2^w` at the
points where the C code performs narrowing casts or where unsigned
wrap-around can occur.  Byte buffers are `List Nat` (each element a
byte value).  Fallible code returns `Except`/`Option`.
-/

namespace MiniVSFS

/-- Block size constant `BS` (4096). -/
def BS : Nat := 4096

/-- `INODE_SIZE` (128). -/
def INODE_SIZE : Nat := 128

/-- `DIRECT_MAX` (12). -/
def DIRECT_MAX : Nat := 12

/-- `MAGIC_NUMBER` (0x4D565346). -/
def MAGIC_NUMBER : Nat := 0x4D565346

/-- `MODE_FILE` (octal 0100000). -/
def MODE_FILE : Nat := 0o100000

/-- `MODE_DIR` (octal 0040000). -/
def MODE_DIR : Nat := 0o040000

/-- 2^32, the modulus of `uint32_t` arithmetic. -/
def M32 : Nat := 4294967296

/-- 2^64, the modulus of `uint64_t` arithmetic. -/
def M64 : Nat := 18446744073709551616

/-- 2^16, the modulus of `uint16_t` arithmetic. -/
def M16 : Nat := 65536

/-- Little-endian serialization of a natural number into `w` bytes
(the in-memory representation of a packed fixed-width field). -/
def toLE : Nat → Nat → List Nat
  | 0, _ => []
  | w + 1, n => (n % 256) :: toLE w (n / 256)

theorem toLE_length (w n : Nat) : (toLE w n).length = w := by
  induction w generalizing n with
  | zero => rfl
  | succ w ih => simp [toLE, ih]

/-- One entry of the CRC32 lookup table, computed as `crc32_init` does:
eight conditional-xor-shift steps applied to the byte index.
(`crc32_init` in `minivsfs_utils.c`.) -/
def crc32_tab_aux : Nat → Nat → Nat
  | 0, c => c
  | j + 1, c =>
    crc32_tab_aux j (if c &&& 1 = 1 then 0xEDB88320 ^^^ (c >>> 1) else c >>> 1)

/-- `CRC32_TAB[i]`. -/
def crc32_tab (i : Nat) : Nat := crc32_tab_aux 8 i

/-- One step of the CRC32 loop body:
`c = CRC32_TAB[(c ^ p[i]) & 0xFF] ^ (c >> 8)`. -/
def crc32_update (c b : Nat) : Nat :=
  crc32_tab ((c ^^^ b) &&& 0xFF) ^^^ (c >>> 8)

/-- The loop of `crc32`, folding `crc32_update` over the input bytes.
The `match` on the updated accumulator is the identity on `Nat`; it only
forces the accumulator to a numeral at every step so that concrete
computations evaluate in constant stack space. -/
def crc32_loop : List Nat → Nat → Nat
  | [], c => c
  | b :: l, c =>
    match crc32_update c b with
    | 0 => crc32_loop l 0
    | c' + 1 => crc32_loop l (c' + 1)

/-- `crc32(data, n)` from `minivsfs_utils.c`: reflected CRC32 with the
initial value `0xFFFFFFFF` and a final xor with `0xFFFFFFFF`. -/
def crc32 (data : List Nat) : Nat :=
  crc32_loop data 0xFFFFFFFF ^^^ 0xFFFFFFFF

/-- The packed `superblock_t` record (116 bytes). -/
structure Superblock where
  magic : Nat
  version : Nat
  block_size : Nat
  total_blocks : Nat
  inode_count : Nat
  inode_bitmap_start : Nat
  inode_bitmap_blocks : Nat
  data_bitmap_start : Nat
  data_bitmap_blocks : Nat
  inode_table_start : Nat
  inode_table_blocks : Nat
  data_region_start : Nat
  data_region_blocks : Nat
  root_inode : Nat
  mtime_epoch : Nat
  flags : Nat
  checksum : Nat
  deriving DecidableEq

/-- Byte-exact serialization of `superblock_t` (packed, little-endian,
116 bytes). -/
def serializeSB (sb : Superblock) : List Nat :=
  toLE 4 sb.magic ++ toLE 4 sb.version ++ toLE 4 sb.block_size ++
  toLE 8 sb.total_blocks ++ toLE 8 sb.inode_count ++
  toLE 8 sb.inode_bitmap_start ++ toLE 8 sb.inode_bitmap_blocks ++
  toLE 8 sb.data_bitmap_start ++ toLE 8 sb.data_bitmap_blocks ++
  toLE 8 sb.inode_table_start ++ toLE 8 sb.inode_table_blocks ++
  toLE 8 sb.data_region_start ++ toLE 8 sb.data_region_blocks ++
  toLE 8 sb.root_inode ++ toLE 8 sb.mtime_epoch ++
  toLE 4 sb.flags ++ toLE 4 sb.checksum

/-- The packed `inode_t` record (128 bytes).  `direct` is the 12-slot
direct pointer array. -/
structure Inode where
  mode : Nat
  links : Nat
  uid : Nat
  gid : Nat
  size_bytes : Nat
  atime : Nat
  mtime : Nat
  ctime : Nat
  direct : List Nat
  reserved_0 : Nat
  reserved_1 : Nat
  reserved_2 : Nat
  proj_id : Nat
  uid16_gid16 : Nat
  xattr_ptr : Nat
  inode_crc : Nat
  deriving DecidableEq

/-- The all-zero inode record (a free slot in the inode table). -/
def zeroInode : Inode :=
  { mode := 0, links := 0, uid := 0, gid := 0, size_bytes := 0,
    atime := 0, mtime := 0, ctime := 0, direct := List.replicate 12 0,
    reserved_0 := 0, reserved_1 := 0, reserved_2 := 0, proj_id := 0,
    uid16_gid16 := 0, xattr_ptr := 0, inode_crc := 0 }

/-- Serialization of the 12-entry direct pointer array (48 bytes). -/
def serializeDirect : List Nat → List Nat
  | [] => []
  | p :: ps => toLE 4 p ++ serializeDirect ps

/-- Byte-exact serialization of `inode_t` (packed, little-endian,
128 bytes when `direct` has 12 entries; the trailing 8 bytes are the
`inode_crc` field). -/
def serializeInode (ino : Inode) : List Nat :=
  toLE 2 ino.mode ++ toLE 2 ino.links ++ toLE 4 ino.uid ++ toLE 4 ino.gid ++
  toLE 8 ino.size_bytes ++ toLE 8 ino.atime ++ toLE 8 ino.mtime ++
  toLE 8 ino.ctime ++ serializeDirect ino.direct ++
  toLE 4 ino.reserved_0 ++ toLE 4 ino.reserved_1 ++ toLE 4 ino.reserved_2 ++
  toLE 4 ino.proj_id ++ toLE 4 ino.uid16_gid16 ++ toLE 8 ino.xattr_ptr ++
  toLE 8 ino.inode_crc

/-- The packed `dirent64_t` record (64 bytes).  `etype` models the C
field `type`; `name` is the 58-byte name field. -/
structure Dirent where
  inode_no : Nat
  etype : Nat
  name : List Nat
  checksum : Nat
  deriving DecidableEq

/-- Byte-exact serialization of `dirent64_t` (64 bytes when `name`
has 58 entries). -/
def serializeDirent (de : Dirent) : List Nat :=
  toLE 4 de.inode_no ++ [de.etype] ++ de.name ++ [de.checksum]

/-- `superblock_crc_finalize` from `minivsfs_utils.c`.  The C code zeroes
the checksum field and then calls `crc32((void *)sb, BS - 4)`, i.e. it
reads `BS - 4 = 4092` bytes starting at the 116-byte struct: the 116
serialized bytes followed by 3976 bytes of whatever memory happens to
follow the struct.  That adjacent memory is passed here explicitly as
`tail`. -/
def superblock_crc_finalize (sb : Superblock) (tail : List Nat) : Superblock :=
  let s := crc32 ((serializeSB { sb with checksum := 0 } ++ tail).take (BS - 4))
  { sb with checksum := s }

/-- `inode_crc_finalize` from `minivsfs_utils.c`: CRC32 over the first
120 bytes of the record (which exclude the trailing `inode_crc` field),
stored into `inode_crc` (low 32 bits; the CRC value is below 2^32). -/
def inode_crc_finalize (ino : Inode) : Inode :=
  { ino with inode_crc := crc32 ((serializeInode ino).take 120) }

/-- `dirent_checksum_finalize` from `minivsfs_utils.c`: XOR of the first
63 bytes of the record (everything except the checksum byte itself). -/
def dirent_checksum_finalize (de : Dirent) : Dirent :=
  { de with checksum := ((serializeDirent de).take 63).foldl Nat.xor 0 }

/-- Bit `i` of a byte-array bitmap, least-significant-bit-first within
each byte (the addressing used by `find_free_bit` and `set_bit`). -/
def bitGet (bm : List Nat) (i : Nat) : Bool :=
  (bm.getD (i / 8) 0).testBit (i % 8)

/-- The inner loop of `find_free_bit`: scan bit indices of byte value
`b` starting at `bit`, with `r` indices left to examine; `base` is
`byte_idx * 8`.  A clear bit is returned only when its absolute index
`base + bit` is below `max`. -/
def findFreeInByte (b max base : Nat) : Nat → Nat → Option Nat
  | 0, _ => none
  | r + 1, bit =>
    if b.testBit bit = false ∧ base + bit < max then some (base + bit)
    else findFreeInByte b max base r (bit + 1)

/-- The outer loop of `find_free_bit`: scan bytes starting at `byte_idx`
with `fuel` bytes left; bytes equal to `0xFF` are skipped. -/
def find_free_bit_aux (bm : List Nat) (max : Nat) : Nat → Nat → Option Nat
  | 0, _ => none
  | fuel + 1, byte_idx =>
    let b := bm.getD byte_idx 0
    match (if b ≠ 255 then findFreeInByte b max (byte_idx * 8) 8 0 else none) with
    | some n => some n
    | none => find_free_bit_aux bm max fuel (byte_idx + 1)

/-- `find_free_bit(bitmap, max_bits)` from `minivsfs_utils.c`.  The byte
count `(max_bits + 7) / 8` is computed in `uint32_t`, hence the `% 2^32`.
Returns `none` for the C return value `-1`. -/
def find_free_bit (bm : List Nat) (max : Nat) : Option Nat :=
  find_free_bit_aux bm max (((max + 7) % M32) / 8) 0

/-- `set_bit(bitmap, bit_number)` from `minivsfs_utils.c`:
`bitmap[n / 8] |= 1 << (n % 8)`. -/
def set_bit (bm : List Nat) (n : Nat) : List Nat :=
  bm.set (n / 8) ((bm.getD (n / 8) 0) ||| (1 <<< (n % 8)))

/-- The `fs_layout_t` record from `minivsfs.h`. -/
structure Layout where
  total_blocks : Nat
  inode_table_blocks : Nat
  data_region_blocks : Nat
  superblock_start : Nat
  inode_bitmap_start : Nat
  data_bitmap_start : Nat
  inode_table_start : Nat
  data_region_start : Nat
  deriving DecidableEq

/-- `total_blocks` as computed by the builder:
`(uint64_t)(args->size_kib * 1024) / BS` — the product is a `uint32_t`
multiplication, hence the `% 2^32` before the division. -/
def layout_total (size_kib : Nat) : Nat := ((size_kib * 1024) % M32) / BS

/-- `inode_table_blocks` as computed by `calculate_layout`:
`(inode_count + 31) / 32` in `uint32_t` arithmetic. -/
def layout_itb (inode_count : Nat) : Nat := ((inode_count + 31) % M32) / 32

/-- `data_region_blocks` as computed by `calculate_layout`:
`total_blocks - data_region_start` in `uint64_t` arithmetic, which
wraps around instead of going negative. -/
def layout_drb (size_kib inode_count : Nat) : Nat :=
  (layout_total size_kib + M64 - (3 + layout_itb inode_count)) % M64

/-- The range and alignment validation performed by the builder's
`parse_cli_args` after parsing: size within [180, 4096] KiB, inode count
within [128, 512], size a multiple of 4, and inode count at most
`total_blocks * (BS / INODE_SIZE)`. -/
def parse_validate (size_kib inode_count : Nat) : Bool :=
  decide (180 ≤ size_kib) && decide (size_kib ≤ 4096) &&
  decide (128 ≤ inode_count) && decide (inode_count ≤ 512) &&
  decide (size_kib % 4 = 0) &&
  decide (inode_count ≤ layout_total size_kib * 32)

/-- `calculate_layout` from `mkfs_builder.c`.  Both error tests in the C
code (`data_region_blocks <= 0` and `data_region_blocks < 1`) compare an
unsigned 64-bit value, so each fires exactly when the value is zero. -/
def calculate_layout (size_kib inode_count : Nat) : Except Unit Layout :=
  let total := layout_total size_kib
  let itb := layout_itb inode_count
  let drs := 3 + itb
  let drb := layout_drb size_kib inode_count
  if drb = 0 then .error ()
  else if drb < 1 then .error ()
  else .ok { total_blocks := total, inode_table_blocks := itb,
             data_region_blocks := drb, superblock_start := 0,
             inode_bitmap_start := 1, data_bitmap_start := 2,
             inode_table_start := 3, data_region_start := drs }

/-- An in-memory volume image: the superblock, the two bitmap blocks
(4096 bytes each), the inode table (one record per 128-byte slot) and
the data region (one 4096-byte block per entry). -/
structure Image where
  sb : Superblock
  inode_bitmap : List Nat
  data_bitmap : List Nat
  inode_table : List Inode
  data_region : List (List Nat)
  deriving DecidableEq

/-- The root inode as `create_root_inode` builds it: directory mode,
2 links, size of two directory entries, `direct[0]` pointing at the
first data-region block (a `uint32_t` cast of the block number). -/
def create_root_inode (first_data_block now : Nat) : Inode :=
  inode_crc_finalize
    { mode := MODE_DIR, links := 2, uid := 0, gid := 0,
      size_bytes := 2 * 64, atime := now, mtime := now, ctime := now,
      direct := (first_data_block % M32) :: List.replicate 11 0,
      reserved_0 := 0, reserved_1 := 0, reserved_2 := 0, proj_id := 7,
      uid16_gid16 := 0, xattr_ptr := 0, inode_crc := 0 }

/-- The "." root directory entry built by `create_root_directory_entries`. -/
def dotEntry : Dirent :=
  dirent_checksum_finalize
    { inode_no := 1, etype := 2, name := 46 :: List.replicate 57 0,
      checksum := 0 }

/-- The ".." root directory entry built by `create_root_directory_entries`. -/
def dotdotEntry : Dirent :=
  dirent_checksum_finalize
    { inode_no := 1, etype := 2, name := 46 :: 46 :: List.replicate 56 0,
      checksum := 0 }

/-- The first data-region block emitted by the builder: the "." and ".."
entries followed by zeros. -/
def rootDirBlock : List Nat :=
  serializeDirent dotEntry ++ serializeDirent dotdotEntry ++
  List.replicate (4096 - 128) 0

/-- The image emitted by `mkfs_builder`'s `main` for a given layout:
finalized superblock, both bitmaps with bit 0 set, the inode table with
the root inode in slot 0 and zeros elsewhere, and the data region with
the root directory block first and zeros elsewhere.  `now1`/`now2` are
the two `time(NULL)` calls (superblock and root inode); `tail` is the
memory adjacent to the on-stack superblock struct that
`superblock_crc_finalize` over-reads. -/
def mkfs_builder_image (inode_count now1 now2 : Nat) (tail : List Nat)
    (l : Layout) : Image :=
  let sb := superblock_crc_finalize
    { magic := MAGIC_NUMBER, version := 1, block_size := BS,
      total_blocks := l.total_blocks, inode_count := inode_count,
      inode_bitmap_start := 1, inode_bitmap_blocks := 1,
      data_bitmap_start := 2, data_bitmap_blocks := 1,
      inode_table_start := 3, inode_table_blocks := l.inode_table_blocks,
      data_region_start := l.data_region_start,
      data_region_blocks := l.data_region_blocks, root_inode := 1,
      mtime_epoch := now1, flags := 0, checksum := 0 } tail
  { sb := sb
    inode_bitmap := (List.replicate 4096 0).set 0 (0 ||| 1)
    data_bitmap := (List.replicate 4096 0).set 0 (0 ||| 1)
    inode_table :=
      create_root_inode l.data_region_start now2 ::
      List.replicate (32 * l.inode_table_blocks - 1) zeroInode
    data_region :=
      rootDirBlock ::
      List.replicate (l.data_region_blocks - 1) (List.replicate 4096 0) }

/-- `mkfs_builder`'s `main` without the I/O plumbing: validate the CLI
arguments, compute the layout, and emit the image. -/
def mkfs_builder_run (size_kib inode_count now1 now2 : Nat)
    (tail : List Nat) : Except Unit Image :=
  if parse_validate size_kib inode_count then
    match calculate_layout size_kib inode_count with
    | .error _ => .error ()
    | .ok l => .ok (mkfs_builder_image inode_count now1 now2 tail l)
  else .error ()

/-- A little-endian `uint32_t` read at byte offset `off` of a block
(the adder's access `entries[i].inode_no`). -/
def readLE32 (blk : List Nat) (off : Nat) : Nat :=
  blk.getD off 0 + 256 * blk.getD (off + 1) 0 +
  65536 * blk.getD (off + 2) 0 + 16777216 * blk.getD (off + 3) 0

/-- The adder's scan of the root directory block: entry indices from 2
up to `BS / 64 - 1 = 63`, looking for the first entry whose inode
number is zero.  `fuel` counts the remaining indices. -/
def direntScanAux (blk : List Nat) : Nat → Nat → Option Nat
  | 0, _ => none
  | fuel + 1, i =>
    if readLE32 blk (64 * i) = 0 then some i
    else direntScanAux blk fuel (i + 1)

/-- The full scan (`for i = 2; i < max_entries; i++`). -/
def direntScan (blk : List Nat) : Option Nat := direntScanAux blk 62 2

/-- The adder's data-block allocation loop: `k` times, find the first
free bit of the data bitmap below `max = (uint32_t)sb.data_region_blocks`,
record the absolute block number `(uint32_t)sb.data_region_start + bit`
and set the bit before the next search.  Returns the allocated block
numbers in allocation order together with the updated bitmap. -/
def allocDataBlocks (dbm : List Nat) (max drs : Nat) :
    Nat → Option (List Nat × List Nat)
  | 0 => some ([], dbm)
  | k + 1 =>
    match find_free_bit dbm max with
    | none => none
    | some bit =>
      match allocDataBlocks (set_bit dbm bit) max drs k with
      | none => none
      | some (rest, dbm') => some (((drs + bit) % M32) :: rest, dbm')

/-- The name field written by the adder: `strncpy` of at most 57 bytes
into a zeroed 58-byte field, with the final byte forced to zero. -/
def padName (nm : List Nat) : List Nat :=
  nm.take 57 ++ List.replicate (58 - (nm.take 57).length) 0

/-- The adder's file-content copy: for each allocated block, the block
is zeroed and then `bytes_to_copy` bytes of the source are copied, where
the last block receives the remainder.  `i` is the loop index, `k` the
total block count, `drs` the `uint32_t` cast of `data_region_start`. -/
def writeFileBlocksAux (drs : Nat) (file : List Nat) (k : Nat) :
    List (List Nat) → Nat → List Nat → List (List Nat)
  | data, _, [] => data
  | data, i, blk :: rest =>
    let off := (blk + M32 - drs) % M32
    let c := if i = k - 1 then file.length - i * BS else BS
    let newBlock := (file.drop (i * BS)).take c ++ List.replicate (BS - c) 0
    writeFileBlocksAux drs file k (data.set off newBlock) (i + 1) rest

/-- The whole copy loop over the allocated blocks. -/
def writeFileBlocks (data : List (List Nat)) (drs : Nat)
    (blocks : List Nat) (file : List Nat) : List (List Nat) :=
  writeFileBlocksAux drs file blocks.length data 0 blocks

/-- Writing a 64-byte directory entry at entry index `idx` of a block. -/
def writeDirentAt (blk : List Nat) (idx : Nat) (de : Dirent) : List Nat :=
  blk.take (64 * idx) ++ serializeDirent de ++ blk.drop (64 * idx + 64)

/-- The error outcomes of `mkfs_adder`, in the order the checks occur. -/
inductive AdderError where
  | nameTooLong
  | emptyFile
  | fileTooLarge
  | badMagic
  | noFreeInode
  | noFreeDataBlocks
  | dirFull
  deriving DecidableEq

/-- The successful outcome of `mkfs_adder`: the reported (1-indexed)
inode number and the image written to the destination. -/
structure AdderResult where
  new_inode_num : Nat
  img : Image
  deriving DecidableEq

/-- The new inode the adder populates (lines 184–213 of
`mkfs_adder.c`): regular-file mode, link count 1, size = source byte
length, all three timestamps = `now`, direct pointers = the allocated
blocks `bl` in allocation order with the remaining slots zero, checksum
finalized. -/
def adderNewInode (file bl : List Nat) (now : Nat) : Inode :=
  inode_crc_finalize
    { mode := MODE_FILE, links := 1, uid := 0, gid := 0,
      size_bytes := file.length, atime := now, mtime := now, ctime := now,
      direct := bl ++ List.replicate (DIRECT_MAX - (file.length + BS - 1) / BS) 0,
      reserved_0 := 0, reserved_1 := 0, reserved_2 := 0,
      proj_id := 7, uid16_gid16 := 0, xattr_ptr := 0, inode_crc := 0 }

/-- The inode table after the new inode is written into slot
`new_inode_num - 1 = fb`. -/
def adderTable1 (img : Image) (fb : Nat) (file bl : List Nat)
    (now : Nat) : List Inode :=
  img.inode_table.set fb (adderNewInode file bl now)

/-- The root inode after the first update (link count incremented in
`uint16_t`, mtime set, checksum refinalized).  The root is read from
slot 0 of the table after the new inode was written, as the C code's
aliasing pointer does. -/
def adderRoot1 (img : Image) (fb : Nat) (file bl : List Nat)
    (now : Nat) : Inode :=
  inode_crc_finalize
    { (adderTable1 img fb file bl now).getD 0 zeroInode with
      links := (((adderTable1 img fb file bl now).getD 0 zeroInode).links + 1)
        % M16,
      mtime := now }

/-- The root-directory block index the adder computes:
`root_inode->direct[0] - (uint32_t)sb.data_region_start` in `uint32_t`
arithmetic. -/
def adderRootBlockIdx (img : Image) (fb : Nat) (file bl : List Nat)
    (now : Nat) : Nat :=
  ((adderRoot1 img fb file bl now).direct.getD 0 0 + M32 -
    img.sb.data_region_start % M32) % M32

/-- The committed result of a successful adder run, given the chosen
inode bit `fb`, the allocated block list `bl` with updated data bitmap
`dbm'`, and the free directory-entry index `idx`: the new directory
entry is written and finalized, the root inode's size grows by one
entry width and is refinalized, the file content is copied into the
allocated blocks with zero padding, and the superblock's mtime and
checksum are updated. -/
def adderCommit (img : Image) (file nm : List Nat) (now : Nat)
    (tail : List Nat) (fb : Nat) (bl dbm' : List Nat) (idx : Nat) :
    AdderResult :=
  let ibm' := set_bit img.inode_bitmap fb
  let table1 := adderTable1 img fb file bl now
  let root1 := adderRoot1 img fb file bl now
  let table2 := table1.set 0 root1
  let rbi := adderRootBlockIdx img fb file bl now
  let rootBlk := img.data_region.getD rbi []
  let newEntry := dirent_checksum_finalize
    { inode_no := fb + 1, etype := 1, name := padName nm, checksum := 0 }
  let data1 := img.data_region.set rbi (writeDirentAt rootBlk idx newEntry)
  let root2 := inode_crc_finalize
    { root1 with size_bytes := (root1.size_bytes + 64) % M64 }
  let table3 := table2.set 0 root2
  let data2 := writeFileBlocks data1 (img.sb.data_region_start % M32) bl file
  let sb' := superblock_crc_finalize { img.sb with mtime_epoch := now } tail
  { new_inode_num := fb + 1,
    img := { sb := sb', inode_bitmap := ibm', data_bitmap := dbm',
             inode_table := table3, data_region := data2 } }

/-- `mkfs_adder`'s `main` without the I/O plumbing, operating on the
loaded input image `img`, the source file bytes `file`, the display
name `nm` (the last path component as a NUL-free byte list), the single
`time(NULL)` value `now`, and the memory `tail` adjacent to the on-stack
superblock struct (over-read by `superblock_crc_finalize`).  All listed
failures occur before the destination file is opened, so an `error`
result corresponds to a run that writes nothing. -/
def mkfs_adder_run (img : Image) (file nm : List Nat) (now : Nat)
    (tail : List Nat) : Except AdderError AdderResult :=
  if nm.length > 57 then .error .nameTooLong
  else if file.length = 0 then .error .emptyFile
  else if (file.length + BS - 1) / BS > DIRECT_MAX then .error .fileTooLarge
  else if img.sb.magic ≠ MAGIC_NUMBER then .error .badMagic
  else
    match find_free_bit img.inode_bitmap (img.sb.inode_count % M32) with
    | none => .error .noFreeInode
    | some fb =>
      match allocDataBlocks img.data_bitmap (img.sb.data_region_blocks % M32)
          (img.sb.data_region_start % M32) ((file.length + BS - 1) / BS) with
      | none => .error .noFreeDataBlocks
      | some (bl, dbm') =>
        match direntScan
            (img.data_region.getD (adderRootBlockIdx img fb file bl now) []) with
        | none => .error .dirFull
        | some idx => .ok (adderCommit img file nm now tail fb bl dbm' idx)

/-! ## General list and bit helper lemmas -/

theorem getD_set_of_ne {α : Type} (l : List α) (m n : Nat) (a d : α)
    (h : m ≠ n) : (l.set m a).getD n d = l.getD n d := by
  simp [List.getD, List.getElem?_set_ne h]

theorem getD_set_self {α : Type} (l : List α) (n : Nat) (a d : α)
    (h : n < l.length) : (l.set n a).getD n d = a := by
  simp [List.getD, List.getElem?_set_self, h]

theorem getD_replicate_lt {α : Type} {n i : Nat} (a d : α) (h : i < n) :
    (List.replicate n a).getD i d = a := by
  simp [List.getD, List.getElem?_replicate, h]

theorem getD_replicate_ge {α : Type} {n i : Nat} (a d : α) (h : n ≤ i) :
    (List.replicate n a).getD i d = d := by
  have : (List.replicate n a).length ≤ i := by simpa using h
  simp [List.getD, List.getElem?_eq_none this]

theorem testBit_one_iff (n : Nat) : (1 : Nat).testBit n = decide (0 = n) := by
  have h : (1 : Nat) = 2 ^ 0 := rfl
  rw [h, Nat.testBit_two_pow]

/-! ## Serialization structure lemmas -/

/-- The first 120 bytes of a serialized inode: every field except the
trailing `inode_crc`. -/
def serializeInodeBody (ino : Inode) : List Nat :=
  toLE 2 ino.mode ++ toLE 2 ino.links ++ toLE 4 ino.uid ++ toLE 4 ino.gid ++
  toLE 8 ino.size_bytes ++ toLE 8 ino.atime ++ toLE 8 ino.mtime ++
  toLE 8 ino.ctime ++ serializeDirect ino.direct ++
  toLE 4 ino.reserved_0 ++ toLE 4 ino.reserved_1 ++ toLE 4 ino.reserved_2 ++
  toLE 4 ino.proj_id ++ toLE 4 ino.uid16_gid16 ++ toLE 8 ino.xattr_ptr

theorem serializeInode_split (ino : Inode) :
    serializeInode ino = serializeInodeBody ino ++ toLE 8 ino.inode_crc := by
  simp [serializeInode, serializeInodeBody, List.append_assoc]

theorem serializeDirect_length (l : List Nat) :
    (serializeDirect l).length = 4 * l.length := by
  induction l with
  | nil => rfl
  | cons p ps ih => simp [serializeDirect, toLE_length, ih]; omega

theorem serializeInodeBody_length (ino : Inode)
    (h : ino.direct.length = 12) : (serializeInodeBody ino).length = 120 := by
  simp [serializeInodeBody, toLE_length, serializeDirect_length, h]

theorem serializeInode_take120 (ino : Inode) (h : ino.direct.length = 12) :
    (serializeInode ino).take 120 = serializeInodeBody ino := by
  rw [serializeInode_split, ← serializeInodeBody_length ino h]
  exact List.take_left _ _

/-- The first 63 bytes of a serialized directory entry: everything
except the trailing checksum byte. -/
def serializeDirentBody (de : Dirent) : List Nat :=
  toLE 4 de.inode_no ++ [de.etype] ++ de.name

theorem serializeDirent_split (de : Dirent) :
    serializeDirent de = serializeDirentBody de ++ [de.checksum] := by
  simp [serializeDirent, serializeDirentBody, List.append_assoc]

theorem serializeDirentBody_length (de : Dirent) (h : de.name.length = 58) :
    (serializeDirentBody de).length = 63 := by
  simp [serializeDirentBody, toLE_length, h]

theorem serializeDirent_take63 (de : Dirent) (h : de.name.length = 58) :
    (serializeDirent de).take 63 = serializeDirentBody de := by
  rw [serializeDirent_split, ← serializeDirentBody_length de h]
  exact List.take_left _ _

/-! ## Claim C9: idempotence of the three checksum finalizers -/

/-- Refinalizing an already-finalized inode is the identity (the CRC
domain, the first 120 bytes, excludes the `inode_crc` field). -/
theorem inode_crc_finalize_idem (ino : Inode)
    (hino : ino.direct.length = 12) :
    inode_crc_finalize (inode_crc_finalize ino) = inode_crc_finalize ino := by
  have hd : (inode_crc_finalize ino).direct.length = 12 := hino
  have h1 : (serializeInode (inode_crc_finalize ino)).take 120 =
      (serializeInode ino).take 120 := by
    rw [serializeInode_take120 _ hd, serializeInode_take120 _ hino]
    rfl
  simp [inode_crc_finalize] at h1 ⊢
  rw [h1]

/-- Refinalizing an already-finalized directory entry is the identity
(the XOR domain, the first 63 bytes, excludes the checksum byte). -/
theorem dirent_checksum_finalize_idem (de : Dirent)
    (hde : de.name.length = 58) :
    dirent_checksum_finalize (dirent_checksum_finalize de) =
      dirent_checksum_finalize de := by
  have hd : (dirent_checksum_finalize de).name.length = 58 := hde
  have h1 : (serializeDirent (dirent_checksum_finalize de)).take 63 =
      (serializeDirent de).take 63 := by
    rw [serializeDirent_take63 _ hd, serializeDirent_take63 _ hde]
    rfl
  simp [dirent_checksum_finalize] at h1 ⊢
  rw [h1]

/-- C9: applying any of the three checksum finalizers twice, with no
field changes in between, stores the same checksum both times and leaves
the record identical to applying it once.  For the superblock finalizer
`tail` is the (fixed) memory adjacent to the struct that the C code
over-reads; the inode and dirent records are required to be well-formed
(12 direct slots, 58 name bytes), as every record the programs build is. -/
theorem c9_finalizers_idempotent (sb : Superblock) (tail : List Nat)
    (ino : Inode) (de : Dirent)
    (hino : ino.direct.length = 12) (hde : de.name.length = 58) :
    superblock_crc_finalize (superblock_crc_finalize sb tail) tail =
      superblock_crc_finalize sb tail ∧
    inode_crc_finalize (inode_crc_finalize ino) = inode_crc_finalize ino ∧
    dirent_checksum_finalize (dirent_checksum_finalize de) =
      dirent_checksum_finalize de :=
  ⟨rfl, inode_crc_finalize_idem ino hino,
    dirent_checksum_finalize_idem de hde⟩

/-- Witness for C9 at concrete records: the root inode and the "."
entry of a fresh 180 KiB image, and its superblock. -/
theorem c9_finalizers_idempotent_witness :
    superblock_crc_finalize
        (superblock_crc_finalize
          { magic := MAGIC_NUMBER, version := 1, block_size := BS,
            total_blocks := 45, inode_count := 128,
            inode_bitmap_start := 1, inode_bitmap_blocks := 1,
            data_bitmap_start := 2, data_bitmap_blocks := 1,
            inode_table_start := 3, inode_table_blocks := 4,
            data_region_start := 7, data_region_blocks := 38,
            root_inode := 1, mtime_epoch := 0, flags := 0, checksum := 0 } [])
        [] =
      superblock_crc_finalize
        { magic := MAGIC_NUMBER, version := 1, block_size := BS,
          total_blocks := 45, inode_count := 128,
          inode_bitmap_start := 1, inode_bitmap_blocks := 1,
          data_bitmap_start := 2, data_bitmap_blocks := 1,
          inode_table_start := 3, inode_table_blocks := 4,
          data_region_start := 7, data_region_blocks := 38,
          root_inode := 1, mtime_epoch := 0, flags := 0, checksum := 0 } [] ∧
    inode_crc_finalize (inode_crc_finalize zeroInode) =
      inode_crc_finalize zeroInode ∧
    dirent_checksum_finalize
        (dirent_checksum_finalize
          { inode_no := 1, etype := 2, name := 46 :: List.replicate 57 0,
            checksum := 0 }) =
      dirent_checksum_finalize
        { inode_no := 1, etype := 2, name := 46 :: List.replicate 57 0,
          checksum := 0 } :=
  c9_finalizers_idempotent _ [] zeroInode
    { inode_no := 1, etype := 2, name := 46 :: List.replicate 57 0,
      checksum := 0 }
    (by simp [zeroInode]) (by simp)

/-! ## Claim C1: the stored superblock checksum versus the written block -/

/-- The superblock record `create_superblock` builds for a 180 KiB,
128-inode volume (45 total blocks, 4 inode-table blocks, data region at
block 7) with build time 0, before checksum finalization. -/
def sb180pre : Superblock :=
  { magic := MAGIC_NUMBER, version := 1, block_size := BS,
    total_blocks := 45, inode_count := 128,
    inode_bitmap_start := 1, inode_bitmap_blocks := 1,
    data_bitmap_start := 2, data_bitmap_blocks := 1,
    inode_table_start := 3, inode_table_blocks := 4,
    data_region_start := 7, data_region_blocks := 38,
    root_inode := 1, mtime_epoch := 0, flags := 0, checksum := 0 }

/-- CRC32 of the first `BS - 4 = 4092` bytes of the superblock block as
it is actually written to the image — the 116-byte record zero-padded to
a full block — with the checksum field treated as zero.  This is the
recomputation the spec's invariant describes. -/
def block0_recompute (sb : Superblock) : Nat :=
  crc32 ((serializeSB { sb with checksum := 0 } ++ List.replicate 3980 0).take 4092)

/-- C1 (refutation): `superblock_crc_finalize` reads `BS - 4` bytes
starting at the 116-byte struct, so the stored checksum depends on the
3976 bytes of memory that happen to follow the struct.  When that
adjacent memory is not all zero (here: a single 1 byte right after the
struct), the stored checksum differs from the CRC32 of the written
block-0 bytes; when the adjacent memory is all zero, the two agree.
So the claimed invariant holds only by accident of stack contents. -/
theorem c1_superblock_checksum_mismatch :
    (superblock_crc_finalize sb180pre (1 :: List.replicate 3975 0)).checksum ≠
      block0_recompute sb180pre ∧
    (superblock_crc_finalize sb180pre (List.replicate 3976 0)).checksum =
      block0_recompute sb180pre := by
  constructor
  · decide
  · decide

/-! ## Claim C4: find_free_bit first-fit characterization -/

theorem testBit_255 (k : Nat) (h : k < 8) : (255:Nat).testBit k = true := by
  interval_cases k <;> decide

theorem inByte_some (b max base : Nat) :
    ∀ r bit n, findFreeInByte b max base r bit = some n →
      ∃ j, bit ≤ j ∧ j < bit + r ∧ n = base + j ∧ b.testBit j = false ∧
        base + j < max ∧
        ∀ i, bit ≤ i → i < j → (b.testBit i = true ∨ max ≤ base + i) := by
  intro r
  induction r with
  | zero => intro bit n h; simp [findFreeInByte] at h
  | succ r ih =>
    intro bit n h
    rw [findFreeInByte] at h
    by_cases hc : b.testBit bit = false ∧ base + bit < max
    · rw [if_pos hc] at h
      have hn : n = base + bit := by injection h; omega
      exact ⟨bit, le_refl _, by omega, hn, hc.1, hc.2, fun i hi1 hi2 => by omega⟩
    · rw [if_neg hc] at h
      obtain ⟨j, hj1, hj2, hj3, hj4, hj5, hj6⟩ := ih (bit+1) n h
      refine ⟨j, by omega, by omega, hj3, hj4, hj5, ?_⟩
      intro i hi1 hi2
      rcases Nat.eq_or_lt_of_le hi1 with heq | hlt
      · subst heq
        rcases Decidable.em (b.testBit bit = true) with ht | ht
        · exact Or.inl ht
        · right
          rw [Bool.not_eq_true] at ht
          by_contra hmax
          exact hc ⟨ht, by omega⟩
      · exact hj6 i (by omega) hi2

theorem inByte_none (b max base : Nat) :
    ∀ r bit, findFreeInByte b max base r bit = none →
      ∀ j, bit ≤ j → j < bit + r → (b.testBit j = true ∨ max ≤ base + j) := by
  intro r
  induction r with
  | zero => intro bit _ j h1 h2; omega
  | succ r ih =>
    intro bit h j h1 h2
    rw [findFreeInByte] at h
    by_cases hc : b.testBit bit = false ∧ base + bit < max
    · rw [if_pos hc] at h; exact absurd h (by simp)
    · rw [if_neg hc] at h
      rcases Nat.eq_or_lt_of_le h1 with heq | hlt
      · subst heq
        rcases Decidable.em (b.testBit bit = true) with ht | ht
        · exact Or.inl ht
        · right
          rw [Bool.not_eq_true] at ht
          by_contra hmax
          exact hc ⟨ht, by omega⟩
      · exact ih (bit+1) h j (by omega) (by omega)

theorem aux_some (bm : List Nat) (max : Nat) :
    ∀ fuel bi n, find_free_bit_aux bm max fuel bi = some n →
      bi * 8 ≤ n ∧ n < max ∧ bitGet bm n = false ∧
      ∀ j, bi * 8 ≤ j → j < n → (bitGet bm j = true ∨ max ≤ j) := by
  intro fuel
  induction fuel with
  | zero => intro bi n h; simp [find_free_bit_aux] at h
  | succ fuel ih =>
    intro bi n h
    rw [find_free_bit_aux] at h
    rcases hm : (if bm.getD bi 0 ≠ 255 then
        findFreeInByte (bm.getD bi 0) max (bi * 8) 8 0 else none) with _ | m
    · rw [hm] at h
      obtain ⟨ha, hb, hc, hd⟩ := ih (bi + 1) n h
      refine ⟨by omega, hb, hc, ?_⟩
      intro j hj1 hj2
      rcases Nat.lt_or_ge j ((bi + 1) * 8) with hj3 | hj3
      · -- j lies in byte bi
        have hdiv : j / 8 = bi := by omega
        have hmod : j % 8 = j - bi * 8 := by omega
        by_cases h255 : bm.getD bi 0 = 255
        · left
          unfold bitGet
          rw [hdiv, h255, hmod]
          exact testBit_255 _ (by omega)
        · rw [if_pos h255] at hm
          have hnn := inByte_none (bm.getD bi 0) max (bi * 8) 8 0 hm
            (j - bi * 8) (by omega) (by omega)
          rcases hnn with ht | ht
          · left; unfold bitGet; rw [hdiv, hmod]; exact ht
          · right; omega
      · exact hd j hj3 hj2
    · rw [hm] at h
      have hn : n = m := by injection h with hv; omega
      subst hn
      have hne : bm.getD bi 0 ≠ 255 := by
        by_contra hcon
        rw [if_neg (by simpa using hcon)] at hm
        exact Option.noConfusion hm
      rw [if_pos hne] at hm
      obtain ⟨j, hj1, hj2, hj3, hj4, hj5, hj6⟩ :=
        inByte_some (bm.getD bi 0) max (bi * 8) 8 0 n hm
      have hdiv : n / 8 = bi := by omega
      have hmod : n % 8 = j := by omega
      refine ⟨by omega, by omega, ?_, ?_⟩
      · unfold bitGet; rw [hdiv, hmod]; exact hj4
      · intro i hi1 hi2
        have hij : i - bi * 8 < j := by omega
        have := hj6 (i - bi * 8) (by omega) hij
        have hdiv2 : i / 8 = bi := by omega
        have hmod2 : i % 8 = i - bi * 8 := by omega
        rcases this with ht | ht
        · left; unfold bitGet; rw [hdiv2, hmod2]; exact ht
        · right; omega

theorem aux_none (bm : List Nat) (max : Nat) :
    ∀ fuel bi, find_free_bit_aux bm max fuel bi = none →
      ∀ j, bi * 8 ≤ j → j < (bi + fuel) * 8 → (bitGet bm j = true ∨ max ≤ j) := by
  intro fuel
  induction fuel with
  | zero => intro bi _ j h1 h2; omega
  | succ fuel ih =>
    intro bi h j h1 h2
    rw [find_free_bit_aux] at h
    rcases hm : (if bm.getD bi 0 ≠ 255 then
        findFreeInByte (bm.getD bi 0) max (bi * 8) 8 0 else none) with _ | m
    · rw [hm] at h
      rcases Nat.lt_or_ge j ((bi + 1) * 8) with hj3 | hj3
      · have hdiv : j / 8 = bi := by omega
        have hmod : j % 8 = j - bi * 8 := by omega
        by_cases h255 : bm.getD bi 0 = 255
        · left
          unfold bitGet
          rw [hdiv, h255, hmod]
          exact testBit_255 _ (by omega)
        · rw [if_pos h255] at hm
          have hnn := inByte_none (bm.getD bi 0) max (bi * 8) 8 0 hm
            (j - bi * 8) (by omega) (by omega)
          rcases hnn with ht | ht
          · left; unfold bitGet; rw [hdiv, hmod]; exact ht
          · right; omega
      · exact ih (bi + 1) h j (by omega) (by omega)
    · rw [hm] at h
      exact Option.noConfusion h

/-- C4 (amended): for every bitmap byte array covering the scanned
region and every `max_bits` for which the `uint32_t` byte-count
computation `(max_bits + 7) / 8` does not overflow, `find_free_bit`
returns the lowest-numbered index below `max_bits` whose bit
(least-significant-bit-first within each byte) is clear, and returns
NotFound (`none`, the C value -1) exactly when no clear bit exists
below `max_bits`. -/
theorem c4_find_free_bit_first_fit (bm : List Nat) (max : Nat)
    (hwrap : max + 7 < M32) (hlen : (max + 7) / 8 ≤ bm.length) :
    (∀ n, find_free_bit bm max = some n ↔
      (n < max ∧ bitGet bm n = false ∧ ∀ j, j < n → bitGet bm j = true)) ∧
    (find_free_bit bm max = none ↔ ∀ j, j < max → bitGet bm j = true) := by
  have hmod : (max + 7) % M32 = max + 7 := Nat.mod_eq_of_lt hwrap
  have hcover : max ≤ ((max + 7) / 8) * 8 := by omega
  constructor
  · intro n
    constructor
    · intro h
      rw [find_free_bit, hmod] at h
      obtain ⟨_, hb, hc, hd⟩ := aux_some bm max ((max + 7) / 8) 0 n h
      refine ⟨hb, hc, ?_⟩
      intro j hj
      rcases hd j (by omega) hj with ht | ht
      · exact ht
      · omega
    · rintro ⟨h1, h2, h3⟩
      rcases hfind : find_free_bit bm max with _ | m
      · rw [find_free_bit, hmod] at hfind
        have := aux_none bm max ((max + 7) / 8) 0 hfind n (by omega) (by omega)
        rcases this with ht | ht
        · rw [h2] at ht; exact Bool.noConfusion ht
        · omega
      · rw [find_free_bit, hmod] at hfind
        obtain ⟨_, hb, hc, hd⟩ := aux_some bm max ((max + 7) / 8) 0 m hfind
        rcases Nat.lt_trichotomy m n with hmn | hmn | hmn
        · have := h3 m hmn
          rw [hc] at this; exact Bool.noConfusion this
        · rw [hmn]
        · rcases hd n (by omega) hmn with ht | ht
          · rw [h2] at ht; exact Bool.noConfusion ht
          · omega
  · constructor
    · intro h j hj
      rw [find_free_bit, hmod] at h
      have := aux_none bm max ((max + 7) / 8) 0 h j (by omega) (by omega)
      rcases this with ht | ht
      · exact ht
      · omega
    · intro h
      rcases hfind : find_free_bit bm max with _ | m
      · rfl
      · rw [find_free_bit, hmod] at hfind
        obtain ⟨_, hb, hc, _⟩ := aux_some bm max ((max + 7) / 8) 0 m hfind
        have := h m hb
        rw [hc] at this; exact Bool.noConfusion this

/-- C4 (refutation of the unrestricted claim): for `max_bits = 2^32 - 7`
the `uint32_t` expression `(max_bits + 7) / 8` wraps to 0, so the scan
inspects no bytes at all and returns NotFound even though bit 0 of the
bitmap `[0]` is clear and lies below `max_bits`. -/
theorem c4_wrap_counterexample :
    find_free_bit [0] 4294967289 = none ∧ bitGet [0] 0 = false ∧
      (0:Nat) < 4294967289 := by decide

/-- Witness for the amended C4 at a concrete bitmap: byte 0 full, bit 8
free. -/
theorem c4_witness : find_free_bit [255, 2] 16 = some 8 :=
  ((c4_find_free_bit_first_fit [255, 2] 16 (by decide) (by decide)).1 8).mpr
    (by decide)

/-! ## Claims C5 and C10: the layout calculator -/

/-- Shared helper: on validated arguments `calculate_layout` returns
the explicit layout record, with the arithmetic facts used by the
claims about it. -/
theorem calc_ok_spec (size_kib inode_count : Nat)
    (h : parse_validate size_kib inode_count = true) :
    calculate_layout size_kib inode_count = .ok
      { total_blocks := layout_total size_kib,
        inode_table_blocks := layout_itb inode_count,
        data_region_blocks := layout_drb size_kib inode_count,
        superblock_start := 0, inode_bitmap_start := 1,
        data_bitmap_start := 2, inode_table_start := 3,
        data_region_start := 3 + layout_itb inode_count } ∧
    layout_total size_kib = size_kib * 1024 / 4096 ∧
    layout_itb inode_count = (inode_count + 31) / 32 ∧
    layout_drb size_kib inode_count =
      layout_total size_kib - (3 + layout_itb inode_count) ∧
    26 ≤ layout_drb size_kib inode_count ∧
    45 ≤ layout_total size_kib ∧ layout_itb inode_count ≤ 16 := by
  simp only [parse_validate, Bool.and_eq_true, decide_eq_true_eq] at h
  obtain ⟨⟨⟨⟨⟨h1, h2⟩, h3⟩, h4⟩, h5⟩, h6⟩ := h
  have htot : layout_total size_kib = size_kib * 1024 / 4096 ∧
      45 ≤ layout_total size_kib ∧ layout_total size_kib ≤ 1024 := by
    unfold layout_total M32 BS; omega
  have hitb : layout_itb inode_count = (inode_count + 31) / 32 ∧
      4 ≤ layout_itb inode_count ∧ layout_itb inode_count ≤ 16 := by
    unfold layout_itb M32; omega
  have hdrb : layout_drb size_kib inode_count =
      layout_total size_kib - (3 + layout_itb inode_count) ∧
      26 ≤ layout_drb size_kib inode_count := by
    unfold layout_drb M64; omega
  refine ⟨?_, htot.1, hitb.1, hdrb.1, hdrb.2, htot.2.1, hitb.2.2⟩
  rw [calculate_layout]
  rw [if_neg (by omega), if_neg (by omega)]

/-- C5: for every (size_kib, inode_count) pair accepted by the builder's
validation, the layout calculator succeeds and yields
`total_blocks = size_kib * 1024 / 4096`,
`inode_table_blocks = ceil(inode_count / 32)`, the fixed region starts
0/1/2/3, `data_region_start = 3 + inode_table_blocks`, and
`data_region_blocks = total_blocks - data_region_start ≥ 1`, so the
regions tile the volume exactly:
`3 + inode_table_blocks + data_region_blocks = total_blocks`. -/
theorem c5_layout_tiles (size_kib inode_count : Nat)
    (h : parse_validate size_kib inode_count = true) :
    ∃ l, calculate_layout size_kib inode_count = .ok l ∧
      l.total_blocks = size_kib * 1024 / 4096 ∧
      l.inode_table_blocks = (inode_count + 31) / 32 ∧
      l.superblock_start = 0 ∧ l.inode_bitmap_start = 1 ∧
      l.data_bitmap_start = 2 ∧ l.inode_table_start = 3 ∧
      l.data_region_start = 3 + l.inode_table_blocks ∧
      l.data_region_blocks = l.total_blocks - l.data_region_start ∧
      1 ≤ l.data_region_blocks ∧
      3 + l.inode_table_blocks + l.data_region_blocks = l.total_blocks := by
  obtain ⟨hok, ht, hi, hd, h26, h45, h16⟩ := calc_ok_spec size_kib inode_count h
  exact ⟨_, hok, ht, hi, rfl, rfl, rfl, rfl, rfl, by simp; omega,
    by simp; omega, by simp; omega⟩

/-- Witness for C5 at the smallest accepted volume (180 KiB, 128
inodes). -/
theorem c5_witness :
    ∃ l, calculate_layout 180 128 = .ok l ∧
      l.total_blocks = 180 * 1024 / 4096 ∧
      l.inode_table_blocks = (128 + 31) / 32 ∧
      l.superblock_start = 0 ∧ l.inode_bitmap_start = 1 ∧
      l.data_bitmap_start = 2 ∧ l.inode_table_start = 3 ∧
      l.data_region_start = 3 + l.inode_table_blocks ∧
      l.data_region_blocks = l.total_blocks - l.data_region_start ∧
      1 ≤ l.data_region_blocks ∧
      3 + l.inode_table_blocks + l.data_region_blocks = l.total_blocks :=
  c5_layout_tiles 180 128 (by decide)

/-- C10: for every argument set accepted by the builder's validation,
`calculate_layout` succeeds (the "Not enough space" branch is
unreachable); its error test on the unsigned 64-bit
`data_region_blocks` fires exactly when the value is zero; and a
shortfall (here `total_blocks = 1 < 19 = data_region_start`, arguments
the validation rejects) underflows to a huge positive block count and
is returned as success rather than being caught. -/
theorem c10_unreachable_error :
    (∀ size_kib inode_count, parse_validate size_kib inode_count = true →
      ∃ l, calculate_layout size_kib inode_count = .ok l) ∧
    (∀ size_kib inode_count,
      calculate_layout size_kib inode_count = .error () ↔
        layout_drb size_kib inode_count = 0) ∧
    (∃ l, calculate_layout 4 512 = .ok l ∧
      layout_total 4 + 18 = 3 + layout_itb 512 ∧
      l.data_region_blocks = 18446744073709551598) := by
  refine ⟨?_, ?_, ?_⟩
  · intro s i h
    exact ⟨_, (calc_ok_spec s i h).1⟩
  · intro s i
    rw [calculate_layout]
    by_cases hz : layout_drb s i = 0
    · rw [if_pos hz]; simp [hz]
    · rw [if_neg hz, if_neg (by omega)]
      simp [hz]
  · exact ⟨Layout.mk 1 16 18446744073709551598 0 1 2 3 19,
      rfl, by decide, rfl⟩

/-- Witness for C10 at a concrete accepted argument pair. -/
theorem c10_witness : ∃ l, calculate_layout 180 128 = .ok l :=
  c10_unreachable_error.1 180 128 (by decide)

/-! ## Claims C3 and C6: adder failure modes and block allocation -/


theorem set_bit_length (bm : List Nat) (n : Nat) :
    (set_bit bm n).length = bm.length := by
  simp [set_bit]

theorem bitGet_set_bit (bm : List Nat) (n j : Nat) (h : n / 8 < bm.length) :
    bitGet (set_bit bm n) j = (bitGet bm j || decide (j = n)) := by
  by_cases hb : j / 8 = n / 8
  · unfold bitGet set_bit
    rw [hb, getD_set_self _ _ _ _ h, Nat.testBit_or]
    have h2 : ((1 <<< (n % 8)) : Nat).testBit (j % 8) = decide (j = n) := by
      rw [Nat.shiftLeft_eq, Nat.one_mul, Nat.testBit_two_pow]
      by_cases hj : j = n
      · subst hj; simp
      · have hne : ¬ (n % 8 = j % 8) := by omega
        simp [hne, hj]
    rw [h2]
  · unfold bitGet set_bit
    rw [getD_set_of_ne _ _ _ _ _ (by omega)]
    have : ¬ (j = n) := by omega
    simp [this]

/-- What the data-allocation loop guarantees on success: the returned
block numbers are `(uint32_t)(data_region_start + bit)` for a strictly
increasing list of bit indices, all below `max` and all clear in the
input bitmap, and the updated bitmap is the input plus exactly those
bits. -/
theorem allocDataBlocks_spec (max drs : Nat) :
    ∀ k dbm bl dbm',
      (max + 7) / 8 ≤ dbm.length →
      max + 7 < M32 →
      allocDataBlocks dbm max drs k = some (bl, dbm') →
      ∃ bits : List Nat,
        bl = bits.map (fun b => (drs + b) % M32) ∧
        bits.length = k ∧
        bits.Pairwise (· < ·) ∧
        (∀ b ∈ bits, b < max ∧ bitGet dbm b = false) ∧
        dbm'.length = dbm.length ∧
        (∀ j, bitGet dbm' j = true ↔ (bitGet dbm j = true ∨ j ∈ bits)) := by
  intro k
  induction k with
  | zero =>
    intro dbm bl dbm' hlen hwrap h
    rw [allocDataBlocks] at h
    injection h with h1
    injection h1 with hbl hdbm
    exact ⟨[], by simp [← hbl], rfl, by simp, by simp, by simp [← hdbm], by simp [← hdbm]⟩
  | succ k ih =>
    intro dbm bl dbm' hlen hwrap h
    rw [allocDataBlocks] at h
    rcases hf : find_free_bit dbm max with _ | bit
    · rw [hf] at h; exact Option.noConfusion h
    · rw [hf] at h
      dsimp only at h
      obtain ⟨hbit1, hbit2, hbit3⟩ :=
        ((c4_find_free_bit_first_fit dbm max hwrap hlen).1 bit).mp hf
      have hinb : bit / 8 < dbm.length := by omega
      rcases hrec : allocDataBlocks (set_bit dbm bit) max drs k with _ | p
      · rw [hrec] at h; exact Option.noConfusion h
      · obtain ⟨rest, dbm2⟩ := p
        rw [hrec] at h
        dsimp only at h
        obtain ⟨bits, hb1, hb2, hb3, hb4, hb5, hb6⟩ :=
          ih (set_bit dbm bit) rest dbm2
            (by rw [set_bit_length]; exact hlen) hwrap hrec
        injection h with h1
        injection h1 with hbl hdbm
        refine ⟨bit :: bits, ?_, ?_, ?_, ?_, ?_, ?_⟩
        · rw [← hbl, hb1]; rfl
        · simp [hb2]
        · refine List.Pairwise.cons ?_ hb3
          intro b hb
          have := (hb4 b hb).2
          rw [bitGet_set_bit dbm bit b hinb] at this
          simp only [Bool.or_eq_false_iff, decide_eq_false_iff_not] at this
          have hne : b ≠ bit := this.2
          have hcl : bitGet dbm b = false := this.1
          by_contra hlt
          have hble : b < bit := by omega
          have := hbit3 b hble
          rw [hcl] at this
          exact Bool.noConfusion this
        · intro b hb
          rcases List.mem_cons.mp hb with rfl | hb'
          · exact ⟨hbit1, hbit2⟩
          · have := hb4 b hb'
            rw [bitGet_set_bit dbm bit b hinb] at this
            simp only [Bool.or_eq_false_iff, decide_eq_false_iff_not] at this
            exact ⟨this.1, this.2.1⟩
        · rw [← hdbm, hb5, set_bit_length]
        · intro j
          rw [← hdbm, hb6 j, bitGet_set_bit dbm bit j hinb]
          simp only [Bool.or_eq_true, decide_eq_true_eq, List.mem_cons]
          tauto

/-- The number of clear bits below `max` in a bitmap. -/
def freeBelow (bm : List Nat) (max : Nat) : Nat :=
  ((List.range max).filter (fun i => ! bitGet bm i)).length

theorem freeBelow_eq_zero_iff (bm : List Nat) (max : Nat) :
    freeBelow bm max = 0 ↔ ∀ j, j < max → bitGet bm j = true := by
  unfold freeBelow
  rw [List.length_eq_zero, List.filter_eq_nil_iff]
  constructor
  · intro h j hj
    have := h j (List.mem_range.mpr hj)
    simpa using this
  · intro h x hx
    simp [h x (List.mem_range.mp hx)]

theorem length_filter_of_flip (p q : Nat → Bool) (b : Nat) :
    ∀ l : List Nat, b ∈ l → l.Nodup → p b = true → q b = false →
      (∀ x ∈ l, x ≠ b → q x = p x) →
      (l.filter q).length + 1 = (l.filter p).length := by
  intro l
  induction l with
  | nil => intro h; simp at h
  | cons a t ih =>
    intro hmem hnd hpb hqb hag
    rcases List.mem_cons.mp hmem with heq | hbt
    · subst heq
      have hbt : b ∉ t := (List.nodup_cons.mp hnd).1
      have hqt : t.filter q = t.filter p := by
        apply List.filter_congr
        intro x hx
        exact hag x (List.mem_cons_of_mem _ hx) (fun hxb => hbt (hxb ▸ hx))
      rw [List.filter_cons, List.filter_cons, hpb, hqb]
      simp [hqt]
    · have hab : a ≠ b := fun h => by
        subst h; exact (List.nodup_cons.mp hnd).1 hbt
      have hqa : q a = p a := hag a (List.mem_cons_self a t) hab
      have := ih hbt (List.nodup_cons.mp hnd).2 hpb hqb
        (fun x hx hxb => hag x (List.mem_cons_of_mem _ hx) hxb)
      rw [List.filter_cons, List.filter_cons, hqa]
      by_cases hpa : p a = true
      · simp [hpa, this]
      · rw [Bool.not_eq_true] at hpa
        simp [hpa, this]

theorem freeBelow_set_bit (bm : List Nat) (bit max : Nat)
    (h1 : bit < max) (h2 : bitGet bm bit = false) (h3 : bit / 8 < bm.length) :
    freeBelow (set_bit bm bit) max + 1 = freeBelow bm max := by
  unfold freeBelow
  apply length_filter_of_flip _ _ bit
  · exact List.mem_range.mpr h1
  · exact List.nodup_range max
  · simp [h2]
  · simp [bitGet_set_bit bm bit bit h3]
  · intro x _ hxb
    simp [bitGet_set_bit bm bit x h3, hxb]

theorem alloc_none_iff (max drs : Nat) :
    ∀ k dbm, (max + 7) / 8 ≤ dbm.length → max + 7 < M32 →
      (allocDataBlocks dbm max drs k = none ↔ freeBelow dbm max < k) := by
  intro k
  induction k with
  | zero =>
    intro dbm _ _
    rw [allocDataBlocks]
    simp
  | succ k ih =>
    intro dbm hlen hwrap
    rw [allocDataBlocks]
    rcases hf : find_free_bit dbm max with _ | bit
    · have hall := ((c4_find_free_bit_first_fit dbm max hwrap hlen).2).mp hf
      have : freeBelow dbm max = 0 := (freeBelow_eq_zero_iff dbm max).mpr hall
      simp [this]
    · dsimp only
      obtain ⟨hbit1, hbit2, _⟩ :=
        ((c4_find_free_bit_first_fit dbm max hwrap hlen).1 bit).mp hf
      have hinb : bit / 8 < dbm.length := by omega
      have hcount := freeBelow_set_bit dbm bit max hbit1 hbit2 hinb
      have hrec := ih (set_bit dbm bit) (by rw [set_bit_length]; exact hlen) hwrap
      rcases ha : allocDataBlocks (set_bit dbm bit) max drs k with _ | p
      · dsimp only
        constructor
        · intro _
          have := hrec.mp ha
          omega
        · intro _; rfl
      · obtain ⟨rest, dbm2⟩ := p
        dsimp only
        constructor
        · intro hcon; exact Option.noConfusion hcon
        · intro hlt
          have : allocDataBlocks (set_bit dbm bit) max drs k = none :=
            hrec.mpr (by omega)
          rw [ha] at this
          exact Option.noConfusion this

/-- Inversion of a successful adder run: all validation checks passed,
and the run's chosen inode bit, allocated blocks, updated data bitmap
and directory slot satisfy the allocator and scan equations, with the
output equal to the committed image. -/
theorem mkfs_adder_run_ok_elim (img : Image) (file nm : List Nat)
    (now : Nat) (tail : List Nat) (out : AdderResult)
    (h : mkfs_adder_run img file nm now tail = .ok out) :
    nm.length ≤ 57 ∧ file.length ≠ 0 ∧
    (file.length + BS - 1) / BS ≤ DIRECT_MAX ∧
    img.sb.magic = MAGIC_NUMBER ∧
    ∃ fb bl dbm' idx,
      find_free_bit img.inode_bitmap (img.sb.inode_count % M32) = some fb ∧
      allocDataBlocks img.data_bitmap (img.sb.data_region_blocks % M32)
        (img.sb.data_region_start % M32) ((file.length + BS - 1) / BS) =
        some (bl, dbm') ∧
      direntScan (img.data_region.getD
        (adderRootBlockIdx img fb file bl now) []) = some idx ∧
      out = adderCommit img file nm now tail fb bl dbm' idx := by
  rw [mkfs_adder_run] at h
  by_cases h1 : nm.length > 57
  · rw [if_pos h1] at h; exact absurd h (by simp)
  rw [if_neg h1] at h
  by_cases h2 : file.length = 0
  · rw [if_pos h2] at h; exact absurd h (by simp)
  rw [if_neg h2] at h
  by_cases h3 : (file.length + BS - 1) / BS > DIRECT_MAX
  · rw [if_pos h3] at h; exact absurd h (by simp)
  rw [if_neg h3] at h
  by_cases h4 : img.sb.magic ≠ MAGIC_NUMBER
  · rw [if_pos h4] at h; exact absurd h (by simp)
  rw [if_neg h4] at h
  refine ⟨by omega, h2, by omega, by omega, ?_⟩
  rcases hf : find_free_bit img.inode_bitmap (img.sb.inode_count % M32)
    with _ | fb
  · rw [hf] at h; exact absurd h (by simp)
  rw [hf] at h
  dsimp only at h
  rcases ha : allocDataBlocks img.data_bitmap (img.sb.data_region_blocks % M32)
      (img.sb.data_region_start % M32) ((file.length + BS - 1) / BS)
    with _ | p
  · rw [ha] at h; exact absurd h (by simp)
  obtain ⟨bl, dbm'⟩ := p
  rw [ha] at h
  dsimp only at h
  rcases hs : direntScan (img.data_region.getD
      (adderRootBlockIdx img fb file bl now) []) with _ | idx
  · rw [hs] at h; exact absurd h (by simp)
  rw [hs] at h
  dsimp only at h
  injection h with hout
  exact ⟨fb, bl, dbm', idx, rfl, rfl, hs, hout.symm⟩

/-- C6: on every successful injection the adder allocates exactly
`ceil(file length / 4096)` data blocks and they are pairwise distinct
(each bit is set before the next first-fit search); the ceiling is 1
for 4095- and 4096-byte files and 2 for a 4097-byte file; and a file
needing more than 12 blocks is rejected (with the checks that precede
it passed) before any bitmap is touched — the run returns the
`fileTooLarge` error and produces no output image. -/
theorem c6_blocks_needed :
    ((4095 + BS - 1) / BS = 1 ∧ (4096 + BS - 1) / BS = 1 ∧
      (4097 + BS - 1) / BS = 2) ∧
    (∀ img file nm now tail, nm.length ≤ 57 → file.length ≠ 0 →
      file.length > 12 * 4096 →
      mkfs_adder_run img file nm now tail = .error .fileTooLarge) ∧
    (∀ img file nm now tail out,
      ((img.sb.data_region_blocks % M32) + 7) / 8 ≤ img.data_bitmap.length →
      (img.sb.data_region_blocks % M32) + 7 < M32 →
      mkfs_adder_run img file nm now tail = .ok out →
      ∃ bl dbm',
        allocDataBlocks img.data_bitmap (img.sb.data_region_blocks % M32)
          (img.sb.data_region_start % M32) ((file.length + BS - 1) / BS) =
          some (bl, dbm') ∧
        bl.length = (file.length + BS - 1) / BS ∧ bl.Nodup) := by
  refine ⟨⟨by decide, by decide, by decide⟩, ?_, ?_⟩
  · intro img file nm now tail h1 h2 h3
    rw [mkfs_adder_run]
    rw [if_neg (by omega), if_neg h2, if_pos (by unfold BS DIRECT_MAX; omega)]
  · intro img file nm now tail out hlen hwrap h
    obtain ⟨_, _, _, _, fb, bl, dbm', idx, hf, ha, hs, hout⟩ :=
      mkfs_adder_run_ok_elim img file nm now tail out h
    obtain ⟨bits, hb1, hb2, hb3, hb4, hb5, hb6⟩ :=
      allocDataBlocks_spec (img.sb.data_region_blocks % M32)
        (img.sb.data_region_start % M32) ((file.length + BS - 1) / BS)
        img.data_bitmap bl dbm' hlen hwrap ha
    refine ⟨bl, dbm', ha, ?_, ?_⟩
    · rw [hb1]; simp [hb2]
    · rw [hb1]
      have hmax : (img.sb.data_region_blocks % M32) < M32 :=
        Nat.mod_lt _ (by unfold M32; omega)
      apply List.Nodup.map_on
      · intro x hx y hy hxy
        have hxm := (hb4 x hx).1
        have hym := (hb4 y hy).1
        unfold M32 at hxm hym hxy hmax
        omega
      · exact hb3.imp (fun hab => Nat.ne_of_lt hab)

/-- The root-directory block index determined by the image alone (the
root inode's first direct pointer minus the data-region start, in
`uint32_t` arithmetic). -/
def rootBlockIdxOf (img : Image) : Nat :=
  ((img.inode_table.getD 0 zeroInode).direct.getD 0 0 + M32 -
    img.sb.data_region_start % M32) % M32

theorem adderRootBlockIdx_eq (img : Image) (fb : Nat) (file bl : List Nat)
    (now : Nat) (hfb : fb ≠ 0) :
    adderRootBlockIdx img fb file bl now = rootBlockIdxOf img := by
  unfold adderRootBlockIdx rootBlockIdxOf adderRoot1 adderTable1
  rw [getD_set_of_ne _ _ _ _ _ hfb]
  rfl

/-- C3: each failing invocation of the injector — name longer than 57
bytes, zero-length input, file needing more than 12 blocks, no free
inode, not enough free data blocks, no free root-directory slot —
returns the corresponding error.  In the C program every one of these
checks precedes `fopen(output, "wb")`, which the embedding reflects by
returning an error before any output state is produced, so nothing is
written and the persisted bitmaps stay exactly as the last successful
run left them. -/
theorem c3_failures_abort :
    (∀ img file nm now tail, nm.length > 57 →
      mkfs_adder_run img file nm now tail = .error .nameTooLong) ∧
    (∀ img file nm now tail, nm.length ≤ 57 → file.length = 0 →
      mkfs_adder_run img file nm now tail = .error .emptyFile) ∧
    (∀ img file nm now tail, nm.length ≤ 57 → file.length ≠ 0 →
      file.length > 12 * 4096 →
      mkfs_adder_run img file nm now tail = .error .fileTooLarge) ∧
    (∀ img file nm now tail, nm.length ≤ 57 → file.length ≠ 0 →
      file.length ≤ 12 * 4096 → img.sb.magic = MAGIC_NUMBER →
      ((img.sb.inode_count % M32) + 7) / 8 ≤ img.inode_bitmap.length →
      (img.sb.inode_count % M32) + 7 < M32 →
      (∀ i, i < img.sb.inode_count % M32 → bitGet img.inode_bitmap i = true) →
      mkfs_adder_run img file nm now tail = .error .noFreeInode) ∧
    (∀ img file nm now tail, nm.length ≤ 57 → file.length ≠ 0 →
      file.length ≤ 12 * 4096 → img.sb.magic = MAGIC_NUMBER →
      ((img.sb.inode_count % M32) + 7) / 8 ≤ img.inode_bitmap.length →
      (img.sb.inode_count % M32) + 7 < M32 →
      (∃ i, i < img.sb.inode_count % M32 ∧ bitGet img.inode_bitmap i = false) →
      ((img.sb.data_region_blocks % M32) + 7) / 8 ≤ img.data_bitmap.length →
      (img.sb.data_region_blocks % M32) + 7 < M32 →
      freeBelow img.data_bitmap (img.sb.data_region_blocks % M32) <
        (file.length + BS - 1) / BS →
      mkfs_adder_run img file nm now tail = .error .noFreeDataBlocks) ∧
    (∀ img file nm now tail, nm.length ≤ 57 → file.length ≠ 0 →
      file.length ≤ 12 * 4096 → img.sb.magic = MAGIC_NUMBER →
      ((img.sb.inode_count % M32) + 7) / 8 ≤ img.inode_bitmap.length →
      (img.sb.inode_count % M32) + 7 < M32 →
      (∃ i, i < img.sb.inode_count % M32 ∧ bitGet img.inode_bitmap i = false) →
      bitGet img.inode_bitmap 0 = true →
      ((img.sb.data_region_blocks % M32) + 7) / 8 ≤ img.data_bitmap.length →
      (img.sb.data_region_blocks % M32) + 7 < M32 →
      (file.length + BS - 1) / BS ≤
        freeBelow img.data_bitmap (img.sb.data_region_blocks % M32) →
      direntScan (img.data_region.getD (rootBlockIdxOf img) []) = none →
      mkfs_adder_run img file nm now tail = .error .dirFull) := by
  have hbn : ∀ n : Nat, n ≠ 0 → n ≤ 12 * 4096 →
      ¬ ((n + BS - 1) / BS > DIRECT_MAX) := by
    intro n h1 h2; unfold BS DIRECT_MAX; omega
  refine ⟨?_, ?_, ?_, ?_, ?_, ?_⟩
  · intro img file nm now tail h1
    rw [mkfs_adder_run, if_pos h1]
  · intro img file nm now tail h1 h2
    rw [mkfs_adder_run, if_neg (by omega), if_pos h2]
  · intro img file nm now tail h1 h2 h3
    rw [mkfs_adder_run, if_neg (by omega), if_neg h2,
      if_pos (by unfold BS DIRECT_MAX; omega)]
  · intro img file nm now tail h1 h2 h3 h4 hlen hwrap hall
    rw [mkfs_adder_run, if_neg (by omega), if_neg h2, if_neg (hbn _ h2 h3),
      if_neg (by simp [h4])]
    have hnone : find_free_bit img.inode_bitmap (img.sb.inode_count % M32) =
        none :=
      ((c4_find_free_bit_first_fit _ _ hwrap hlen).2).mpr hall
    rw [hnone]
  · intro img file nm now tail h1 h2 h3 h4 hleni hwrapi hex hlend hwrapd hfree
    rw [mkfs_adder_run, if_neg (by omega), if_neg h2, if_neg (hbn _ h2 h3),
      if_neg (by simp [h4])]
    rcases hf : find_free_bit img.inode_bitmap (img.sb.inode_count % M32)
      with _ | fb
    · obtain ⟨i, hi1, hi2⟩ := hex
      have := ((c4_find_free_bit_first_fit _ _ hwrapi hleni).2).mp hf i hi1
      rw [hi2] at this
      exact absurd this (by simp)
    · dsimp only
      have hanone : allocDataBlocks img.data_bitmap
          (img.sb.data_region_blocks % M32) (img.sb.data_region_start % M32)
          ((file.length + BS - 1) / BS) = none :=
        (alloc_none_iff _ _ _ _ hlend hwrapd).mpr hfree
      rw [hanone]
  · intro img file nm now tail h1 h2 h3 h4 hleni hwrapi hex hroot hlend hwrapd
      hfree hscan
    rw [mkfs_adder_run, if_neg (by omega), if_neg h2, if_neg (hbn _ h2 h3),
      if_neg (by simp [h4])]
    rcases hf : find_free_bit img.inode_bitmap (img.sb.inode_count % M32)
      with _ | fb
    · obtain ⟨i, hi1, hi2⟩ := hex
      have := ((c4_find_free_bit_first_fit _ _ hwrapi hleni).2).mp hf i hi1
      rw [hi2] at this
      exact absurd this (by simp)
    · dsimp only
      obtain ⟨hfb1, hfb2, _⟩ :=
        ((c4_find_free_bit_first_fit _ _ hwrapi hleni).1 fb).mp hf
      have hfb0 : fb ≠ 0 := by
        intro hcon
        rw [hcon] at hfb2
        rw [hroot] at hfb2
        exact Bool.noConfusion hfb2
      rcases ha : allocDataBlocks img.data_bitmap
          (img.sb.data_region_blocks % M32) (img.sb.data_region_start % M32)
          ((file.length + BS - 1) / BS) with _ | p
      · have := (alloc_none_iff _ _ _ _ hlend hwrapd).mp ha
        omega
      · obtain ⟨bl, dbm'⟩ := p
        dsimp only
        rw [adderRootBlockIdx_eq img fb file bl now hfb0, hscan]

/-- The superblock of a minimal well-formed test volume: 6 blocks
total, 32 inodes in one table block, a 2-block data region at block 4. -/
def testSB : Superblock :=
  { magic := MAGIC_NUMBER, version := 1, block_size := BS,
    total_blocks := 6, inode_count := 32, inode_bitmap_start := 1,
    inode_bitmap_blocks := 1, data_bitmap_start := 2,
    data_bitmap_blocks := 1, inode_table_start := 3,
    inode_table_blocks := 1, data_region_start := 4,
    data_region_blocks := 2, root_inode := 1, mtime_epoch := 0,
    flags := 0, checksum := 0 }

/-- The root inode of the test volume (first data block 4, time 0). -/
def testRootInode : Inode := create_root_inode 4 0

/-- A minimal well-formed test image for the adder theorems: root inode
allocated in slot 0, root directory block with "." and ".." first. -/
def testImage : Image :=
  { sb := testSB
    inode_bitmap := 1 :: List.replicate 4095 0
    data_bitmap := 1 :: List.replicate 4095 0
    inode_table := testRootInode :: List.replicate 31 zeroInode
    data_region := [rootDirBlock, List.replicate 4096 0] }

/-- A root-directory block in which every entry slot is occupied:
every byte is 1, so each slot's inode number reads as nonzero. -/
def fullDirentBlock : List Nat := List.replicate 4096 1

theorem direntScanAux_none_of (blk : List Nat) :
    ∀ fuel i, (∀ j, i ≤ j → j < i + fuel → readLE32 blk (64 * j) ≠ 0) →
      direntScanAux blk fuel i = none := by
  intro fuel
  induction fuel with
  | zero => intro i _; rfl
  | succ fuel ih =>
    intro i h
    rw [direntScanAux, if_neg (h i (le_refl _) (by omega))]
    exact ih (i + 1) (fun j h1 h2 => h j (by omega) (by omega))

theorem direntScanAux_some_elim (blk : List Nat) :
    ∀ fuel i idx, direntScanAux blk fuel i = some idx →
      i ≤ idx ∧ idx < i + fuel ∧ readLE32 blk (64 * idx) = 0 ∧
      ∀ j, i ≤ j → j < idx → readLE32 blk (64 * j) ≠ 0 := by
  intro fuel
  induction fuel with
  | zero => intro i idx h; exact absurd h (by simp [direntScanAux])
  | succ fuel ih =>
    intro i idx h
    rw [direntScanAux] at h
    by_cases hz : readLE32 blk (64 * i) = 0
    · rw [if_pos hz] at h
      injection h with hidx
      subst hidx
      exact ⟨le_refl _, by omega, hz, fun j h1 h2 => by omega⟩
    · rw [if_neg hz] at h
      obtain ⟨ha, hb, hc, hd⟩ := ih (i + 1) idx h
      refine ⟨by omega, by omega, hc, ?_⟩
      intro j h1 h2
      rcases Nat.eq_or_lt_of_le h1 with heq | hlt
      · subst heq; exact hz
      · exact hd j (by omega) h2

theorem direntScan_fullBlock : direntScan fullDirentBlock = none := by
  apply direntScanAux_none_of
  intro j h1 h2
  unfold readLE32 fullDirentBlock
  have hb : ∀ o : Nat, o < 4096 → (List.replicate 4096 1).getD o (0:Nat) = 1 :=
    fun o ho => getD_replicate_lt 1 0 ho
  rw [hb (64 * j) (by omega), hb (64 * j + 1) (by omega),
    hb (64 * j + 2) (by omega), hb (64 * j + 3) (by omega)]
  omega

/-- The test image with its root directory completely full. -/
def fullRootImage : Image :=
  { sb := testSB
    inode_bitmap := [1, 0, 0, 0]
    data_bitmap := [1, 0, 0, 0]
    inode_table := testRootInode :: List.replicate 31 zeroInode
    data_region := [fullDirentBlock, List.replicate 4096 0] }

/-- The test image with every inode below the declared count in use. -/
def fullInodeImage : Image :=
  { sb := testSB
    inode_bitmap := [255, 255, 255, 255]
    data_bitmap := [1, 0, 0, 0]
    inode_table := testRootInode :: List.replicate 31 zeroInode
    data_region := [rootDirBlock, List.replicate 4096 0] }

/-- The test image with every data-region block in use. -/
def fullDataImage : Image :=
  { sb := testSB
    inode_bitmap := [1, 0, 0, 0]
    data_bitmap := [3, 0, 0, 0]
    inode_table := testRootInode :: List.replicate 31 zeroInode
    data_region := [rootDirBlock, List.replicate 4096 0] }


/-- Witness for C3: concrete runs exhibiting each failure kind. -/
theorem c3_witness :
    mkfs_adder_run testImage [7] (List.replicate 58 97) 0 [] =
      .error .nameTooLong ∧
    mkfs_adder_run testImage [] [104] 0 [] = .error .emptyFile ∧
    mkfs_adder_run testImage (List.replicate 49153 7) [104] 0 [] =
      .error .fileTooLarge ∧
    mkfs_adder_run fullInodeImage [7] [104] 0 [] = .error .noFreeInode ∧
    mkfs_adder_run fullDataImage [7] [104] 0 [] = .error .noFreeDataBlocks ∧
    mkfs_adder_run fullRootImage [7] [104] 0 [] = .error .dirFull := by
  refine ⟨?_, ?_, ?_, ?_, ?_, ?_⟩
  · exact c3_failures_abort.1 testImage [7] _ 0 [] (by simp)
  · exact c3_failures_abort.2.1 testImage [] [104] 0 [] (by decide) (by decide)
  · exact c3_failures_abort.2.2.1 testImage _ [104] 0 [] (by decide)
      (by rw [List.length_replicate]; omega)
      (by rw [List.length_replicate]; omega)
  · exact c3_failures_abort.2.2.2.1 fullInodeImage [7] [104] 0 []
      (by decide) (by decide) (by decide) (by decide) (by decide) (by decide)
      (by decide)
  · exact c3_failures_abort.2.2.2.2.1 fullDataImage [7] [104] 0 []
      (by decide) (by decide) (by decide) (by decide) (by decide) (by decide)
      (⟨1, by decide, by decide⟩) (by decide) (by decide) (by decide)
  · exact c3_failures_abort.2.2.2.2.2 fullRootImage [7] [104] 0 []
      (by decide) (by decide) (by decide) (by decide) (by decide) (by decide)
      (⟨1, by decide, by decide⟩) (by decide) (by decide) (by decide)
      (by decide) (by exact direntScan_fullBlock)

def testFile : List Nat := List.replicate 10 104
def testName : List Nat := [104, 105]
def testTail : List Nat := List.replicate 3976 0
def testOut : AdderResult :=
  ((mkfs_adder_run testImage testFile testName 5 testTail).toOption).getD
    { new_inode_num := 0, img := testImage }

theorem testImage_ibm_length : testImage.inode_bitmap.length = 4096 := by
  rw [show testImage.inode_bitmap = 1 :: List.replicate 4095 0 from rfl,
    List.length_cons, List.length_replicate]

theorem testImage_dbm_length : testImage.data_bitmap.length = 4096 := by
  rw [show testImage.data_bitmap = 1 :: List.replicate 4095 0 from rfl,
    List.length_cons, List.length_replicate]

theorem testRun_ok :
    mkfs_adder_run testImage testFile testName 5 testTail = .ok testOut := rfl
/-- Witness for C6: the too-large rejection at a 49153-byte file and
the allocation equation for a successful 10-byte injection into the
test image. -/
theorem c6_witness :
    mkfs_adder_run testImage (List.replicate 49153 7) [107] 0 [] =
      .error .fileTooLarge ∧
    (∃ bl dbm',
      allocDataBlocks testImage.data_bitmap
        (testImage.sb.data_region_blocks % M32)
        (testImage.sb.data_region_start % M32)
        ((testFile.length + BS - 1) / BS) = some (bl, dbm') ∧
      bl.length = (testFile.length + BS - 1) / BS ∧ bl.Nodup) :=
  ⟨c6_blocks_needed.2.1 testImage _ [107] 0 [] (by decide)
      (by rw [List.length_replicate]; omega)
      (by rw [List.length_replicate]; omega),
   c6_blocks_needed.2.2 testImage testFile testName 5 testTail testOut
      (by rw [testImage_dbm_length]; decide) (by decide) testRun_ok⟩

theorem getD_append_left {α : Type} (l1 l2 : List α) (n : Nat) (d : α)
    (h : n < l1.length) : (l1 ++ l2).getD n d = l1.getD n d := by
  simp [List.getD, List.getElem?_append, h]

theorem getD_append_right {α : Type} (l1 l2 : List α) (n : Nat) (d : α)
    (h : l1.length ≤ n) : (l1 ++ l2).getD n d = l2.getD (n - l1.length) d := by
  simp [List.getD, List.getElem?_append, Nat.not_lt.mpr h]

theorem getD_take_lt {α : Type} (l : List α) (m n : Nat) (d : α) (h : n < m) :
    (l.take m).getD n d = l.getD n d := by
  simp [List.getD, List.getElem?_take_of_lt h]

theorem getD_drop {α : Type} (l : List α) (m n : Nat) (d : α) :
    (l.drop m).getD n d = l.getD (m + n) d := by
  simp [List.getD, List.getElem?_drop]

theorem serializeDirent_length (de : Dirent) (h : de.name.length = 58) :
    (serializeDirent de).length = 64 := by
  simp [serializeDirent, toLE_length, h]

/-- Bytes of a block outside the written 64-byte entry slot are
unchanged by `writeDirentAt`. -/
theorem writeDirentAt_getD_outside (blk : List Nat) (idx : Nat) (de : Dirent)
    (o : Nat) (hlen : 64 * idx + 64 ≤ blk.length)
    (hde : de.name.length = 58)
    (h : o < 64 * idx ∨ 64 * idx + 64 ≤ o) :
    (writeDirentAt blk idx de).getD o 0 = blk.getD o 0 := by
  unfold writeDirentAt
  have htl : (blk.take (64 * idx)).length = 64 * idx := by
    simp [List.length_take]; omega
  have hsl : (serializeDirent de).length = 64 := serializeDirent_length de hde
  have hab : (blk.take (64 * idx) ++ serializeDirent de).length =
      64 * idx + 64 := by
    rw [List.length_append, htl, hsl]
  rcases h with h | h
  · rw [getD_append_left _ _ _ _ (by omega),
      getD_append_left _ _ _ _ (by omega)]
    exact getD_take_lt _ _ _ _ h
  · rw [getD_append_right _ _ _ _ (by omega), hab, getD_drop]
    congr 1
    omega

/-- Data-region blocks outside the written offsets are unchanged by the
file-content copy loop. -/
theorem writeFileBlocksAux_getD_frame (drs : Nat) (file : List Nat) (k : Nat) :
    ∀ blocks data i b d, (∀ blk ∈ blocks, (blk + M32 - drs) % M32 ≠ b) →
      (writeFileBlocksAux drs file k data i blocks).getD b d = data.getD b d := by
  intro blocks
  induction blocks with
  | nil => intro data i b d _; rfl
  | cons blk rest ih =>
    intro data i b d h
    rw [writeFileBlocksAux]
    rw [ih _ _ _ _ (fun x hx => h x (List.mem_cons_of_mem _ hx))]
    exact getD_set_of_ne _ _ _ _ _ (h blk (List.mem_cons_self _ _))

/-- The root inode's first direct pointer. -/
def rootDirect0 (img : Image) : Nat :=
  (img.inode_table.getD 0 zeroInode).direct.getD 0 0

/-- The structural well-formedness of an input image that the adder's C
code relies on. -/
def ValidImage (img : Image) : Prop :=
  img.sb.magic = MAGIC_NUMBER ∧
  img.sb.inode_count < M32 ∧
  img.sb.inode_count ≤ img.inode_table.length ∧
  (img.sb.inode_count % M32 + 7) / 8 ≤ img.inode_bitmap.length ∧
  img.sb.inode_count % M32 + 7 < M32 ∧
  (img.sb.data_region_blocks % M32 + 7) / 8 ≤ img.data_bitmap.length ∧
  img.sb.data_region_blocks % M32 + 7 < M32 ∧
  0 < img.sb.data_region_start ∧
  img.sb.data_region_start + img.sb.data_region_blocks < M32 ∧
  img.data_region.length = img.sb.data_region_blocks ∧
  (∀ b ∈ img.data_region, b.length = 4096) ∧
  bitGet img.inode_bitmap 0 = true ∧
  img.sb.data_region_start ≤ rootDirect0 img ∧
  rootDirect0 img < img.sb.data_region_start + img.sb.data_region_blocks ∧
  bitGet img.data_bitmap (rootDirect0 img - img.sb.data_region_start) = true ∧
  (img.inode_table.getD 0 zeroInode).links < 65535 ∧
  (img.inode_table.getD 0 zeroInode).size_bytes + 64 < M64 ∧
  (img.inode_table.getD 0 zeroInode).direct.length = 12

/-- The root inode after a successful run, wrap reductions applied. -/
def adderFinalRoot (img : Image) (now : Nat) : Inode :=
  inode_crc_finalize
    { inode_crc_finalize
        { img.inode_table.getD 0 zeroInode with
          links := (img.inode_table.getD 0 zeroInode).links + 1,
          mtime := now } with
      size_bytes := (img.inode_table.getD 0 zeroInode).size_bytes + 64 }

/-- Full dissection of a successful adder run on a valid image. -/
theorem adder_success_dissect (img : Image) (file nm : List Nat)
    (now : Nat) (tail : List Nat) (out : AdderResult)
    (hv : ValidImage img)
    (hrun : mkfs_adder_run img file nm now tail = .ok out) :
    ∃ (fb : Nat) (bl dbm' : List Nat) (idx : Nat) (bits : List Nat),
      find_free_bit img.inode_bitmap (img.sb.inode_count % M32) = some fb ∧
      allocDataBlocks img.data_bitmap (img.sb.data_region_blocks % M32)
        (img.sb.data_region_start % M32) ((file.length + BS - 1) / BS) =
        some (bl, dbm') ∧
      fb ≠ 0 ∧ fb < img.sb.inode_count ∧
      bitGet img.inode_bitmap fb = false ∧
      (∀ j, j < fb → bitGet img.inode_bitmap j = true) ∧
      bl = bits.map (fun b => img.sb.data_region_start + b) ∧
      bits.length = (file.length + BS - 1) / BS ∧
      (file.length + BS - 1) / BS ≤ 12 ∧
      (∀ b ∈ bits, b < img.sb.data_region_blocks ∧
        bitGet img.data_bitmap b = false) ∧
      (∀ j, bitGet dbm' j = true ↔
        (bitGet img.data_bitmap j = true ∨ j ∈ bits)) ∧
      rootBlockIdxOf img = rootDirect0 img - img.sb.data_region_start ∧
      direntScan (img.data_region.getD (rootBlockIdxOf img) []) = some idx ∧
      2 ≤ idx ∧ idx < 64 ∧
      readLE32 (img.data_region.getD (rootBlockIdxOf img) []) (64 * idx) = 0 ∧
      (∀ j, 2 ≤ j → j < idx →
        readLE32 (img.data_region.getD (rootBlockIdxOf img) []) (64 * j) ≠ 0) ∧
      nm.length ≤ 57 ∧ file.length ≠ 0 ∧
      out.new_inode_num = fb + 1 ∧
      out.img.sb = superblock_crc_finalize
        { img.sb with mtime_epoch := now } tail ∧
      out.img.inode_bitmap = set_bit img.inode_bitmap fb ∧
      out.img.data_bitmap = dbm' ∧
      out.img.inode_table.length = img.inode_table.length ∧
      out.img.inode_table.getD fb zeroInode = adderNewInode file bl now ∧
      out.img.inode_table.getD 0 zeroInode = adderFinalRoot img now ∧
      (∀ s, s ≠ 0 → s ≠ fb →
        out.img.inode_table.getD s zeroInode =
          img.inode_table.getD s zeroInode) ∧
      out.img.data_region.getD (rootBlockIdxOf img) [] =
        writeDirentAt (img.data_region.getD (rootBlockIdxOf img) []) idx
          (dirent_checksum_finalize
            { inode_no := fb + 1, etype := 1, name := padName nm,
              checksum := 0 }) ∧
      (∀ b, b ≠ rootBlockIdxOf img → b ∉ bits →
        out.img.data_region.getD b [] = img.data_region.getD b []) := by
  obtain ⟨hv1, hv2, hv3, hv4, hv5, hv6, hv7, hv8, hv9, hv10, hv11, hv12,
    hv13, hv14, hv15, hv16, hv17, hv18⟩ := hv
  obtain ⟨hnm, hfile, hbn, hmagic, fb, bl, dbm', idx, hf, ha, hs, hout⟩ :=
    mkfs_adder_run_ok_elim img file nm now tail out hrun
  obtain ⟨hfb1, hfb2, hfb3⟩ :=
    ((c4_find_free_bit_first_fit _ _ hv5 hv4).1 fb).mp hf
  have hcount : img.sb.inode_count % M32 = img.sb.inode_count :=
    Nat.mod_eq_of_lt hv2
  have hfb0 : fb ≠ 0 := by
    intro hcon
    rw [hcon, hv12] at hfb2
    exact Bool.noConfusion hfb2
  have hfbc : fb < img.sb.inode_count := by omega
  obtain ⟨bits, hb1, hb2, hb3, hb4, hb5, hb6⟩ :=
    allocDataBlocks_spec _ _ _ _ _ _ hv6 hv7 ha
  have hdrb : img.sb.data_region_blocks % M32 = img.sb.data_region_blocks :=
    Nat.mod_eq_of_lt (by omega)
  have hdrs : img.sb.data_region_start % M32 = img.sb.data_region_start :=
    Nat.mod_eq_of_lt (by omega)
  have hbits : ∀ b ∈ bits, b < img.sb.data_region_blocks ∧
      bitGet img.data_bitmap b = false := by
    intro b hb
    have := hb4 b hb
    rw [hdrb] at this
    exact this
  have hbl : bl = bits.map (fun b => img.sb.data_region_start + b) := by
    rw [hb1]
    apply List.map_congr_left
    intro b hb
    have hblt := (hbits b hb).1
    rw [hdrs]
    exact Nat.mod_eq_of_lt (by omega)
  have hrbi_eq : adderRootBlockIdx img fb file bl now = rootBlockIdxOf img :=
    adderRootBlockIdx_eq img fb file bl now hfb0
  have hrbi_val : rootBlockIdxOf img =
      rootDirect0 img - img.sb.data_region_start := by
    unfold rootBlockIdxOf
    unfold rootDirect0 at hv13 hv14
    rw [hdrs]
    have h1 : (img.inode_table.getD 0 zeroInode).direct.getD 0 0 + M32 -
        img.sb.data_region_start =
        ((img.inode_table.getD 0 zeroInode).direct.getD 0 0 -
          img.sb.data_region_start) + M32 := by omega
    rw [h1, Nat.add_mod_right]
    exact Nat.mod_eq_of_lt (by omega)
  have hframe : ∀ blk ∈ bl,
      (blk + M32 - img.sb.data_region_start % M32) % M32 ∉
        ({rootBlockIdxOf img} : Set Nat) → True := fun _ _ _ => trivial
  have hoff : ∀ b ∈ bits,
      (img.sb.data_region_start + b + M32 - img.sb.data_region_start % M32)
        % M32 = b := by
    intro b hb
    have hblt := (hbits b hb).1
    rw [hdrs]
    have h1 : img.sb.data_region_start + b + M32 -
        img.sb.data_region_start = b + M32 := by omega
    rw [h1, Nat.add_mod_right]
    exact Nat.mod_eq_of_lt (by omega)
  rw [hrbi_eq] at hs
  obtain ⟨hidx1, hidx2, hidx3, hidx4⟩ := direntScanAux_some_elim _ _ _ _ hs
  subst hout
  unfold adderCommit
  dsimp only
  refine ⟨fb, bl, dbm', idx, bits, hf, ha, hfb0, hfbc, hfb2, hfb3, hbl, ?_,
    (by unfold DIRECT_MAX at hbn; omega), hbits, hb6, hrbi_val, hs, hidx1,
    (by omega), hidx3,
    (fun j h1 h2 => hidx4 j h1 h2), hnm, hfile, rfl, rfl, rfl, rfl, ?_, ?_,
    ?_, ?_, ?_, ?_⟩
  · exact hb2
  · simp [adderTable1]
  · rw [getD_set_of_ne _ _ _ _ _ (Ne.symm hfb0),
      getD_set_of_ne _ _ _ _ _ (Ne.symm hfb0)]
    unfold adderTable1
    exact getD_set_self img.inode_table fb (adderNewInode file bl now)
      zeroInode (by omega)
  · have hlinks : ((img.inode_table.getD 0 zeroInode).links + 1) % M16 =
        (img.inode_table.getD 0 zeroInode).links + 1 :=
      Nat.mod_eq_of_lt (by unfold M16; omega)
    have hsize : ((img.inode_table.getD 0 zeroInode).size_bytes + 64) % M64 =
        (img.inode_table.getD 0 zeroInode).size_bytes + 64 :=
      Nat.mod_eq_of_lt (by omega)
    rw [getD_set_self _ _ _ _ (by simp [adderTable1]; omega)]
    unfold adderFinalRoot adderRoot1 adderTable1
    rw [getD_set_of_ne _ _ _ _ _ hfb0]
    simp only [inode_crc_finalize]
    rw [hlinks, hsize]
  · intro s hs0 hsfb
    rw [getD_set_of_ne _ _ _ _ _ (Ne.symm hs0),
      getD_set_of_ne _ _ _ _ _ (Ne.symm hs0)]
    unfold adderTable1
    exact getD_set_of_ne _ _ _ _ _ (Ne.symm hsfb)
  · rw [hrbi_eq]
    unfold writeFileBlocks
    rw [writeFileBlocksAux_getD_frame _ _ _ _ _ _ _ _ ?hfr1]
    case hfr1 =>
      intro blk hblk
      rw [hbl] at hblk
      obtain ⟨b, hbmem, hbeq⟩ := List.mem_map.mp hblk
      rw [← hbeq, hoff b hbmem]
      intro hcon
      have := (hbits b hbmem).2
      rw [hcon, hrbi_val, hv15] at this
      exact Bool.noConfusion this
    rw [getD_set_self _ _ _ _ (by rw [hv10, hrbi_val]; omega)]
  · intro b hbr hbb
    rw [hrbi_eq]
    unfold writeFileBlocks
    rw [writeFileBlocksAux_getD_frame _ _ _ _ _ _ _ _ ?hfr2]
    case hfr2 =>
      intro blk hblk
      rw [hbl] at hblk
      obtain ⟨x, hxmem, hxeq⟩ := List.mem_map.mp hblk
      rw [← hxeq, hoff x hxmem]
      intro hcon
      rw [hcon] at hxmem
      exact hbb hxmem
    exact getD_set_of_ne _ _ _ _ _ (fun hcon => hbr hcon.symm)

theorem padName_length (nm : List Nat) : (padName nm).length = 58 := by
  unfold padName
  rw [List.length_append, List.length_replicate]
  have : (nm.take 57).length ≤ 57 := by
    rw [List.length_take]; omega
  omega

theorem padName_eq (nm : List Nat) (h : nm.length ≤ 57) :
    padName nm = nm ++ List.replicate (58 - nm.length) 0 := by
  unfold padName
  rw [List.take_of_length_le h]

theorem adderNewInode_direct (file bl : List Nat) (now : Nat) :
    (adderNewInode file bl now).direct =
      bl ++ List.replicate (DIRECT_MAX - (file.length + BS - 1) / BS) 0 := rfl

theorem adderNewInode_fix (file bl : List Nat) (now : Nat)
    (h : bl.length = (file.length + BS - 1) / BS)
    (h2 : (file.length + BS - 1) / BS ≤ 12) :
    inode_crc_finalize (adderNewInode file bl now) =
      adderNewInode file bl now := by
  unfold adderNewInode
  apply inode_crc_finalize_idem
  rw [List.length_append, List.length_replicate]
  unfold DIRECT_MAX
  omega

theorem adderFinalRoot_facts (img : Image) (now : Nat) :
    (adderFinalRoot img now).links =
      (img.inode_table.getD 0 zeroInode).links + 1 ∧
    (adderFinalRoot img now).size_bytes =
      (img.inode_table.getD 0 zeroInode).size_bytes + 64 ∧
    (adderFinalRoot img now).mtime = now ∧
    (adderFinalRoot img now).mode = (img.inode_table.getD 0 zeroInode).mode ∧
    (adderFinalRoot img now).direct =
      (img.inode_table.getD 0 zeroInode).direct := by
  unfold adderFinalRoot
  simp [inode_crc_finalize]

theorem adderFinalRoot_fix (img : Image) (now : Nat)
    (h : (img.inode_table.getD 0 zeroInode).direct.length = 12) :
    inode_crc_finalize (adderFinalRoot img now) = adderFinalRoot img now := by
  unfold adderFinalRoot
  exact inode_crc_finalize_idem _ h

/-- C2: on every successful injection of a file into a valid image, the
output holds a new inode at the reported 1-indexed number (the first free
inode bit plus one) with regular-file mode, link count 1, size equal to the
file length, all three timestamps equal to the current time, direct
pointers listing the allocated data blocks in allocation order padded with
zeros, and a finalized checksum; the root directory block gains one entry
at the first free slot at index at least 2 carrying that inode number,
file type and the given name; and the root inode's link count grows by
one, its size by 64 bytes, its mtime becomes the current time and its
checksum is re-finalized. -/
theorem c2_injection_postconditions (img : Image) (file nm : List Nat)
    (now : Nat) (tail : List Nat) (out : AdderResult)
    (hv : ValidImage img)
    (hrun : mkfs_adder_run img file nm now tail = .ok out) :
    ∃ (fb idx : Nat) (bl : List Nat),
      out.new_inode_num = fb + 1 ∧ 1 ≤ out.new_inode_num ∧
      find_free_bit img.inode_bitmap (img.sb.inode_count % M32) = some fb ∧
      (out.img.inode_table.getD (out.new_inode_num - 1) zeroInode).mode =
        MODE_FILE ∧
      (out.img.inode_table.getD (out.new_inode_num - 1) zeroInode).links = 1 ∧
      (out.img.inode_table.getD (out.new_inode_num - 1) zeroInode).size_bytes =
        file.length ∧
      (out.img.inode_table.getD (out.new_inode_num - 1) zeroInode).atime =
        now ∧
      (out.img.inode_table.getD (out.new_inode_num - 1) zeroInode).mtime =
        now ∧
      (out.img.inode_table.getD (out.new_inode_num - 1) zeroInode).ctime =
        now ∧
      (∃ dbm', allocDataBlocks img.data_bitmap
        (img.sb.data_region_blocks % M32) (img.sb.data_region_start % M32)
        ((file.length + BS - 1) / BS) = some (bl, dbm')) ∧
      bl.length = (file.length + BS - 1) / BS ∧
      (out.img.inode_table.getD (out.new_inode_num - 1) zeroInode).direct =
        bl ++ List.replicate (DIRECT_MAX - (file.length + BS - 1) / BS) 0 ∧
      inode_crc_finalize
          (out.img.inode_table.getD (out.new_inode_num - 1) zeroInode) =
        out.img.inode_table.getD (out.new_inode_num - 1) zeroInode ∧
      2 ≤ idx ∧ idx < 64 ∧
      readLE32 (img.data_region.getD (rootBlockIdxOf img) []) (64 * idx) = 0 ∧
      (∀ j, 2 ≤ j → j < idx →
        readLE32 (img.data_region.getD (rootBlockIdxOf img) []) (64 * j)
          ≠ 0) ∧
      out.img.data_region.getD (rootBlockIdxOf img) [] =
        writeDirentAt (img.data_region.getD (rootBlockIdxOf img) []) idx
          (dirent_checksum_finalize
            { inode_no := out.new_inode_num, etype := 1,
              name := nm ++ List.replicate (58 - nm.length) 0,
              checksum := 0 }) ∧
      (out.img.inode_table.getD 0 zeroInode).links =
        (img.inode_table.getD 0 zeroInode).links + 1 ∧
      (out.img.inode_table.getD 0 zeroInode).size_bytes =
        (img.inode_table.getD 0 zeroInode).size_bytes + 64 ∧
      (out.img.inode_table.getD 0 zeroInode).mtime = now ∧
      inode_crc_finalize (out.img.inode_table.getD 0 zeroInode) =
        out.img.inode_table.getD 0 zeroInode := by
  have hdir12 : (img.inode_table.getD 0 zeroInode).direct.length = 12 :=
    hv.2.2.2.2.2.2.2.2.2.2.2.2.2.2.2.2.2
  obtain ⟨fb, bl, dbm', idx, bits, hf, ha, hfb0, hfbc, hfb2, hfb3, hbl, hk,
    hk12, hbits, hdb, hrbi, hs, hidx1, hidx2, hidx3, hidx4, hnm, hfile, ho1,
    ho2, ho3, ho4, ho5, ho6, ho7, ho8, ho9, ho10⟩ :=
    adder_success_dissect img file nm now tail out hv hrun
  have hslot : out.new_inode_num - 1 = fb := by omega
  have hk' : bl.length = (file.length + BS - 1) / BS := by
    rw [hbl, List.length_map, hk]
  refine ⟨fb, idx, bl, ho1, by omega, hf, ?_, ?_, ?_, ?_, ?_, ?_,
    ⟨dbm', ha⟩, hk', ?_, ?_, hidx1, hidx2, hidx3, hidx4, ?_, ?_, ?_, ?_, ?_⟩
  · rw [hslot, ho6]; rfl
  · rw [hslot, ho6]; rfl
  · rw [hslot, ho6]; rfl
  · rw [hslot, ho6]; rfl
  · rw [hslot, ho6]; rfl
  · rw [hslot, ho6]; rfl
  · rw [hslot, ho6]; rfl
  · rw [hslot, ho6]; exact adderNewInode_fix file bl now hk' hk12
  · rw [ho9, padName_eq nm hnm, ho1]
  · rw [ho7]; exact (adderFinalRoot_facts img now).1
  · rw [ho7]; exact (adderFinalRoot_facts img now).2.1
  · rw [ho7]; exact (adderFinalRoot_facts img now).2.2.1
  · rw [ho7]
    exact adderFinalRoot_fix img now hdir12

theorem getD_cons_succ' {α : Type} (a : α) (l : List α) (i : Nat) (d : α) :
    (a :: l).getD (i + 1) d = l.getD i d := by
  simp [List.getD]

theorem getD_cons_zero' {α : Type} (a : α) (l : List α) (d : α) :
    (a :: l).getD 0 d = a := by
  simp [List.getD]

theorem getD_replicate_self {α : Type} (n i : Nat) (a : α) :
    (List.replicate n a).getD i a = a := by
  rcases Nat.lt_or_ge i n with h | h
  · exact getD_replicate_lt a a h
  · exact getD_replicate_ge a a h

/-- Bit `i` of the builder's bitmaps (`bitmap[0] |= 0x01` on a zeroed
block) is set exactly for `i = 0`. -/
theorem bitGet_builder_bitmap (i : Nat) :
    bitGet ((List.replicate 4096 0).set 0 (0 ||| 1)) i = decide (i = 0) := by
  unfold bitGet
  by_cases h : i / 8 = 0
  · rw [h, getD_set_self _ _ _ _ (by rw [List.length_replicate]; omega)]
    rw [Nat.testBit_or, Nat.zero_testBit, testBit_one_iff]
    by_cases h0 : i = 0
    · subst h0; simp
    · have : ¬ (0 = i % 8) := by omega
      simp [this, h0]
  · rw [getD_set_of_ne _ _ _ _ _ (fun hc => h hc.symm)]
    have h0 : ¬ (i = 0) := by omega
    rcases Nat.lt_or_ge (i / 8) 4096 with hlt | hge
    · rw [getD_replicate_lt _ _ hlt, Nat.zero_testBit]
      simp [h0]
    · rw [getD_replicate_ge _ _ hge, Nat.zero_testBit]
      simp [h0]

/-- The bitmap/allocation correspondence of claim C7. -/
def BitmapInv (img : Image) : Prop :=
  (∀ i, i < img.sb.inode_count →
    (bitGet img.inode_bitmap i = true ↔
      (img.inode_table.getD i zeroInode).mode ≠ 0)) ∧
  (∀ i, img.sb.inode_count ≤ i → bitGet img.inode_bitmap i = false) ∧
  (∀ i, i < img.sb.data_region_blocks →
    (bitGet img.data_bitmap i = true ↔
      ∃ j, j < img.sb.inode_count ∧
        (img.inode_table.getD j zeroInode).mode ≠ 0 ∧
        (img.sb.data_region_start + i) ∈
          (img.inode_table.getD j zeroInode).direct)) ∧
  (∀ i, img.sb.data_region_blocks ≤ i → bitGet img.data_bitmap i = false)

/-- The builder's image satisfies the invariant, for any layout with
the builder's shape. -/
theorem builder_image_inv (inode_count now1 now2 : Nat) (tail : List Nat)
    (l : Layout) (hits : l.data_region_start = 3 + l.inode_table_blocks)
    (h16 : l.inode_table_blocks ≤ 16) (hcnt : 1 ≤ inode_count)
    (hdrb : 1 ≤ l.data_region_blocks) :
    BitmapInv (mkfs_builder_image inode_count now1 now2 tail l) := by
  have hdrs32 : l.data_region_start % M32 = l.data_region_start :=
    Nat.mod_eq_of_lt (by unfold M32; omega)
  have htable : ∀ j, 1 ≤ j →
      ((mkfs_builder_image inode_count now1 now2 tail l).inode_table.getD j
        zeroInode) = zeroInode := by
    intro j hj
    show ((create_root_inode l.data_region_start now2 ::
      List.replicate (32 * l.inode_table_blocks - 1) zeroInode).getD j
        zeroInode) = zeroInode
    obtain ⟨j', rfl⟩ : ∃ j', j = j' + 1 := ⟨j - 1, by omega⟩
    rw [getD_cons_succ', getD_replicate_self]
  have hroot : ((mkfs_builder_image inode_count now1 now2 tail
      l).inode_table.getD 0 zeroInode) =
      create_root_inode l.data_region_start now2 := by
    show ((create_root_inode l.data_region_start now2 ::
      List.replicate (32 * l.inode_table_blocks - 1) zeroInode).getD 0
        zeroInode) = _
    rw [getD_cons_zero']
  have hibm : (mkfs_builder_image inode_count now1 now2 tail
      l).inode_bitmap = (List.replicate 4096 0).set 0 (0 ||| 1) := rfl
  have hdbm : (mkfs_builder_image inode_count now1 now2 tail
      l).data_bitmap = (List.replicate 4096 0).set 0 (0 ||| 1) := rfl
  have hcount : (mkfs_builder_image inode_count now1 now2 tail
      l).sb.inode_count = inode_count := rfl
  have hdrsf : (mkfs_builder_image inode_count now1 now2 tail
      l).sb.data_region_start = l.data_region_start := rfl
  have hdrbf : (mkfs_builder_image inode_count now1 now2 tail
      l).sb.data_region_blocks = l.data_region_blocks := rfl
  have hrdirect : (create_root_inode l.data_region_start now2).direct =
      (l.data_region_start % M32) :: List.replicate 11 0 := rfl
  have hrmode : (create_root_inode l.data_region_start now2).mode =
      MODE_DIR := rfl
  refine ⟨?_, ?_, ?_, ?_⟩
  · intro i hi2
    rw [hibm, bitGet_builder_bitmap]
    by_cases h0 : i = 0
    · subst h0
      rw [hroot, hrmode]
      decide
    · rw [htable i (by omega)]
      simp [h0, zeroInode]
  · intro i hi2
    rw [hibm, bitGet_builder_bitmap]
    rw [hcount] at hi2
    have : ¬ (i = 0) := by omega
    simp [this]
  · intro i hi2
    rw [hdbm, bitGet_builder_bitmap, hdrsf]
    constructor
    · intro hbit
      have h0 : i = 0 := by simpa using hbit
      subst h0
      refine ⟨0, by rw [hcount]; omega, ?_, ?_⟩
      · rw [hroot, hrmode]; decide
      · rw [hroot, hrdirect, hdrs32, Nat.add_zero]
        exact List.mem_cons_self _ _
    · rintro ⟨j, hj1, hj2, hj3⟩
      by_cases hj0 : j = 0
      · subst hj0
        rw [hroot, hrdirect, hdrs32] at hj3
        rcases List.mem_cons.mp hj3 with heq | hmem
        · have : i = 0 := by omega
          simp [this]
        · have := List.eq_of_mem_replicate hmem
          omega
      · rw [htable j (by omega)] at hj2
        simp [zeroInode] at hj2
  · intro i hi2
    rw [hdbm, bitGet_builder_bitmap]
    rw [hdrbf] at hi2
    have : ¬ (i = 0) := by omega
    simp [this]

/-- Builder part of the bitmap invariant. -/
theorem builderEstablishesInv (size_kib inode_count now1 now2 : Nat)
    (tail : List Nat) (img : Image)
    (hok : mkfs_builder_run size_kib inode_count now1 now2 tail = .ok img) :
    BitmapInv img := by
  rw [mkfs_builder_run] at hok
  by_cases hval : parse_validate size_kib inode_count
  · rw [if_pos hval] at hok
    obtain ⟨hcalc, ht, hi, hd, h26, h45, h16⟩ :=
      calc_ok_spec size_kib inode_count hval
    rw [hcalc] at hok
    injection hok with hok
    have hcnt : 1 ≤ inode_count := by
      simp only [parse_validate, Bool.and_eq_true, decide_eq_true_eq] at hval
      omega
    rw [← hok]
    exact builder_image_inv inode_count now1 now2 tail _ rfl h16 hcnt
      (by show 1 ≤ layout_drb size_kib inode_count; omega)
  · rw [if_neg hval] at hok
    exact absurd hok (by simp)

/-- Adder part of the bitmap invariant: a successful injection preserves the
invariant. -/
theorem adderPreservesInv (img : Image) (file nm : List Nat) (now : Nat)
    (tail : List Nat) (out : AdderResult)
    (hv : ValidImage img) (hinv : BitmapInv img)
    (hrun : mkfs_adder_run img file nm now tail = .ok out) :
    BitmapInv out.img := by
  obtain ⟨hv1, hv2, hv3, hv4, hv5, hv6, hv7, hv8, hv9, hv10, hv11, hv12,
    hv13, hv14, hv15, hv16, hv17, hv18⟩ := hv
  obtain ⟨hi1, hi2, hi3, hi4⟩ := hinv
  obtain ⟨fb, bl, dbm', idx, bits, hf, ha, hfb0, hfbc, hfb2, hfb3, hbl, hk,
    hk12, hbits, hdb, hrbi, hs, hidx1, hidx2, hidx3, hidx4, hnm, hfile, ho1,
    ho2, ho3, ho4, ho5, ho6, ho7, ho8, ho9, ho10⟩ :=
    adder_success_dissect img file nm now tail out
      ⟨hv1, hv2, hv3, hv4, hv5, hv6, hv7, hv8, hv9, hv10, hv11, hv12,
        hv13, hv14, hv15, hv16, hv17, hv18⟩ hrun
  have hc1 : out.img.sb.inode_count = img.sb.inode_count := by rw [ho2]; rfl
  have hc2 : out.img.sb.data_region_blocks = img.sb.data_region_blocks := by
    rw [ho2]; rfl
  have hc3 : out.img.sb.data_region_start = img.sb.data_region_start := by
    rw [ho2]; rfl
  have hfb8 : fb / 8 < img.inode_bitmap.length := by
    have : fb < img.sb.inode_count % M32 := by
      rw [Nat.mod_eq_of_lt hv2]; exact hfbc
    omega
  have hbit_out : ∀ j, bitGet out.img.inode_bitmap j =
      (bitGet img.inode_bitmap j || decide (j = fb)) := by
    intro j
    rw [ho3]
    exact bitGet_set_bit img.inode_bitmap fb j hfb8
  have hmode_new : (adderNewInode file bl now).mode = MODE_FILE := rfl
  have hdir_new : (adderNewInode file bl now).direct =
      bl ++ List.replicate (DIRECT_MAX - (file.length + BS - 1) / BS) 0 :=
    rfl
  have hroot_facts := adderFinalRoot_facts img now
  refine ⟨?_, ?_, ?_, ?_⟩
  · intro i hlt
    rw [hc1] at hlt
    rw [hbit_out]
    by_cases hifb : i = fb
    · subst hifb
      rw [ho6]
      simp [hmode_new, show MODE_FILE ≠ 0 from by decide]
    · by_cases hi0 : i = 0
      · subst hi0
        rw [ho7, hv12]
        have hmode0 := (hi1 0 (by omega)).mp hv12
        rw [hroot_facts.2.2.2.1]
        simp only [Bool.true_or, true_iff]
        exact hmode0
      · rw [ho8 i hi0 hifb]
        simpa [hifb] using hi1 i hlt
  · intro i hge
    rw [hc1] at hge
    rw [hbit_out]
    have : ¬ (i = fb) := by omega
    simp [this]
    exact hi2 i hge
  · intro i hlt
    rw [hc2] at hlt
    rw [hc3, ho4]
    have hdbm' := hdb i
    constructor
    · intro hbit
      rcases (hdb i).mp hbit with hold | hmem
      · obtain ⟨j, hj1, hj2, hj3⟩ := hi3 i hlt |>.mp hold
        by_cases hjfb : j = fb
        · subst hjfb
          have := (hi1 j (by omega)).mpr hj2
          rw [hfb2] at this
          exact absurd this (by simp)
        · by_cases hj0 : j = 0
          · subst hj0
            refine ⟨0, by omega, ?_, ?_⟩
            · rw [ho7, hroot_facts.2.2.2.1]; exact hj2
            · rw [ho7, hroot_facts.2.2.2.2]; exact hj3
          · exact ⟨j, by omega, by rw [ho8 j hj0 hjfb]; exact hj2,
              by rw [ho8 j hj0 hjfb]; exact hj3⟩
      · refine ⟨fb, by omega, ?_, ?_⟩
        · rw [ho6]; simp [hmode_new, show MODE_FILE ≠ 0 from by decide]
        · rw [ho6, hdir_new]
          apply List.mem_append_left
          rw [hbl]
          exact List.mem_map.mpr ⟨i, hmem, rfl⟩
    · rintro ⟨j, hj1, hj2, hj3⟩
      rw [hc1] at hj1
      apply (hdb i).mpr
      by_cases hjfb : j = fb
      · subst hjfb
        rw [ho6, hdir_new] at hj3
        rcases List.mem_append.mp hj3 with hin | hin
        · rw [hbl] at hin
          obtain ⟨b, hbm, hbe⟩ := List.mem_map.mp hin
          have : b = i := by omega
          subst this
          exact Or.inr hbm
        · have := List.eq_of_mem_replicate hin
          omega
      · by_cases hj0 : j = 0
        · subst hj0
          rw [ho7, hroot_facts.2.2.2.1] at hj2
          rw [ho7, hroot_facts.2.2.2.2] at hj3
          exact Or.inl ((hi3 i hlt).mpr ⟨0, by omega, hj2, hj3⟩)
        · rw [ho8 j hj0 hjfb] at hj2 hj3
          exact Or.inl ((hi3 i hlt).mpr ⟨j, hj1, hj2, hj3⟩)
  · intro i hge
    rw [hc2] at hge
    rw [ho4]
    have hnb : i ∉ bits := by
      intro hmem
      have := (hbits i hmem).1
      omega
    rcases hbo : bitGet dbm' i with hfalse | htrue
    · rfl
    · have := (hdb i).mp hbo
      rcases this with hold | hmem
      · rw [hi4 i hge] at hold
        exact absurd hold (by simp)
      · exact absurd hmem hnb

theorem getD_mem {α : Type} (l : List α) (n : Nat) (d : α)
    (h : n < l.length) : l.getD n d ∈ l := by
  simp only [List.getD, List.get?_eq_getElem?, List.getElem?_eq_getElem h,
    Option.getD_some]
  exact List.getElem_mem h

/-- C8: on every successful injection into a valid image, the only
superblock fields that change are the last-modify timestamp and the
checksum; the "." and ".." entries (bytes 0..127 of the root directory
block) are unchanged, as is every byte of that block outside the one
written 64-byte entry slot; every inode slot other than the root's and
the new inode's is unchanged; and every data block other than the root
directory block and the newly allocated blocks is byte-identical to the
input. -/
theorem c8_frame_effects (img : Image) (file nm : List Nat) (now : Nat)
    (tail : List Nat) (out : AdderResult)
    (hv : ValidImage img)
    (hrun : mkfs_adder_run img file nm now tail = .ok out) :
    ∃ (fb idx : Nat) (bl : List Nat),
      out.new_inode_num = fb + 1 ∧
      bl.length = (file.length + BS - 1) / BS ∧
      out.img.sb.magic = img.sb.magic ∧
      out.img.sb.version = img.sb.version ∧
      out.img.sb.block_size = img.sb.block_size ∧
      out.img.sb.total_blocks = img.sb.total_blocks ∧
      out.img.sb.inode_count = img.sb.inode_count ∧
      out.img.sb.inode_bitmap_start = img.sb.inode_bitmap_start ∧
      out.img.sb.inode_bitmap_blocks = img.sb.inode_bitmap_blocks ∧
      out.img.sb.data_bitmap_start = img.sb.data_bitmap_start ∧
      out.img.sb.data_bitmap_blocks = img.sb.data_bitmap_blocks ∧
      out.img.sb.inode_table_start = img.sb.inode_table_start ∧
      out.img.sb.inode_table_blocks = img.sb.inode_table_blocks ∧
      out.img.sb.data_region_start = img.sb.data_region_start ∧
      out.img.sb.data_region_blocks = img.sb.data_region_blocks ∧
      out.img.sb.root_inode = img.sb.root_inode ∧
      out.img.sb.flags = img.sb.flags ∧
      out.img.sb.mtime_epoch = now ∧
      2 ≤ idx ∧ idx < 64 ∧
      (∀ o, o < 128 →
        (out.img.data_region.getD (rootBlockIdxOf img) []).getD o 0 =
          (img.data_region.getD (rootBlockIdxOf img) []).getD o 0) ∧
      (∀ o, o < 64 * idx ∨ 64 * idx + 64 ≤ o →
        (out.img.data_region.getD (rootBlockIdxOf img) []).getD o 0 =
          (img.data_region.getD (rootBlockIdxOf img) []).getD o 0) ∧
      (∀ s, s ≠ 0 → s ≠ fb →
        out.img.inode_table.getD s zeroInode =
          img.inode_table.getD s zeroInode) ∧
      (∀ b, b ≠ rootBlockIdxOf img →
        (img.sb.data_region_start + b) ∉ bl →
        out.img.data_region.getD b [] = img.data_region.getD b []) := by
  obtain ⟨hv1, hv2, hv3, hv4, hv5, hv6, hv7, hv8, hv9, hv10, hv11, hv12,
    hv13, hv14, hv15, hv16, hv17, hv18⟩ := hv
  obtain ⟨fb, bl, dbm', idx, bits, hf, ha, hfb0, hfbc, hfb2, hfb3, hbl, hk,
    hk12, hbits, hdb, hrbi, hs, hidx1, hidx2, hidx3, hidx4, hnm, hfile, ho1,
    ho2, ho3, ho4, ho5, ho6, ho7, ho8, ho9, ho10⟩ :=
    adder_success_dissect img file nm now tail out
      ⟨hv1, hv2, hv3, hv4, hv5, hv6, hv7, hv8, hv9, hv10, hv11, hv12,
        hv13, hv14, hv15, hv16, hv17, hv18⟩ hrun
  have hk' : bl.length = (file.length + BS - 1) / BS := by
    rw [hbl, List.length_map, hk]
  have hrbilt : rootBlockIdxOf img < img.data_region.length := by
    rw [hv10, hrbi]
    omega
  have hblk_len : (img.data_region.getD (rootBlockIdxOf img) []).length =
      4096 :=
    hv11 _ (getD_mem _ _ _ hrbilt)
  have hout_byte : ∀ o, o < 64 * idx ∨ 64 * idx + 64 ≤ o →
      (out.img.data_region.getD (rootBlockIdxOf img) []).getD o 0 =
        (img.data_region.getD (rootBlockIdxOf img) []).getD o 0 := by
    intro o hco
    rw [ho9]
    exact writeDirentAt_getD_outside _ _ _ _ (by omega) (padName_length nm)
      hco
  refine ⟨fb, idx, bl, ho1, hk', by rw [ho2]; rfl, by rw [ho2]; rfl, by rw [ho2]; rfl,
    by rw [ho2]; rfl, by rw [ho2]; rfl, by rw [ho2]; rfl, by rw [ho2]; rfl, by rw [ho2]; rfl,
    by rw [ho2]; rfl, by rw [ho2]; rfl, by rw [ho2]; rfl, by rw [ho2]; rfl, by rw [ho2]; rfl,
    by rw [ho2]; rfl, by rw [ho2]; rfl, by rw [ho2]; rfl, hidx1, hidx2,
    ?_, hout_byte, ho8, ?_⟩
  · intro o ho128
    exact hout_byte o (Or.inl (by omega))
  · intro b hbr hbnb
    apply ho10 b hbr
    intro hmem
    apply hbnb
    rw [hbl]
    exact List.mem_map.mpr ⟨b, hmem, rfl⟩

/-- C7: in every image produced by the builder, and in the output of
every successful injector run on a valid image satisfying it, bit i of
the inode bitmap is set iff inode i+1 is allocated (nonzero mode), bit i
of the data bitmap is set iff data block data_region_start + i is
referenced by some allocated inode's direct pointers, and every bit at or
beyond the declared inode count (respectively data-block count) is
clear. -/
theorem c7_bitmap_invariant :
    (∀ size_kib inode_count now1 now2 tail img,
      mkfs_builder_run size_kib inode_count now1 now2 tail = .ok img →
      BitmapInv img) ∧
    (∀ img file nm now tail out, ValidImage img → BitmapInv img →
      mkfs_adder_run img file nm now tail = .ok out →
      BitmapInv out.img) :=
  ⟨fun s i n1 n2 t img hok => builderEstablishesInv s i n1 n2 t img hok,
   fun img f nm now t out hv hinv hrun =>
     adderPreservesInv img f nm now t out hv hinv hrun⟩

theorem rootDirBlock_length : rootDirBlock.length = 4096 := by
  unfold rootDirBlock
  rw [List.length_append, List.length_append, List.length_replicate,
    serializeDirent_length _ (by rw [show dotEntry.name =
      46 :: List.replicate 57 0 from rfl, List.length_cons,
      List.length_replicate]),
    serializeDirent_length _ (by rw [show dotdotEntry.name =
      46 :: 46 :: List.replicate 56 0 from rfl, List.length_cons,
      List.length_cons, List.length_replicate])]

theorem testImage_valid : ValidImage testImage := by
  refine ⟨by decide, by decide, by decide,
    by rw [testImage_ibm_length]; decide, by decide,
    by rw [testImage_dbm_length]; decide, by decide, by decide, by decide,
    by decide, ?_, by decide, by decide, by decide, by decide, by decide,
    by decide, by decide⟩
  intro b hb
  rw [show testImage.data_region = [rootDirBlock, List.replicate 4096 0]
    from rfl] at hb
  rcases List.mem_cons.mp hb with heq | hb2
  · rw [heq]; exact rootDirBlock_length
  · rcases List.mem_cons.mp hb2 with heq | hb3
    · rw [heq, List.length_replicate]
    · simp at hb3

theorem bitGet_test_bitmap (i : Nat) :
    bitGet (1 :: List.replicate 4095 0) i = decide (i = 0) := by
  have h : (List.replicate 4096 0).set 0 (0 ||| 1) =
      1 :: List.replicate 4095 0 := by
    rw [show List.replicate 4096 (0:Nat) = 0 :: List.replicate 4095 0
      from rfl]
    rfl
  rw [← h]
  exact bitGet_builder_bitmap i

theorem testImage_inv : BitmapInv testImage := by
  refine ⟨by decide, ?_, by decide, ?_⟩
  · intro i hge
    show bitGet (1 :: List.replicate 4095 0) i = false
    rw [bitGet_test_bitmap]
    have : ¬ (i = 0) := by
      intro h
      rw [h] at hge
      exact absurd hge (by decide)
    simp [this]
  · intro i hge
    show bitGet (1 :: List.replicate 4095 0) i = false
    rw [bitGet_test_bitmap]
    have : ¬ (i = 0) := by
      intro h
      rw [h] at hge
      exact absurd hge (by decide)
    simp [this]


/-- The image produced by the builder at the spec's example parameters
(180 KiB, 128 inodes). -/
def builtImage : Image :=
  (mkfs_builder_run 180 128 0 0 []).toOption.getD testImage

theorem c2_witness :
    ∃ (fb idx : Nat) (bl : List Nat),
      testOut.new_inode_num = fb + 1 ∧ 1 ≤ testOut.new_inode_num ∧
      find_free_bit testImage.inode_bitmap (testImage.sb.inode_count % M32) = some fb ∧
      (testOut.img.inode_table.getD (testOut.new_inode_num - 1) zeroInode).mode =
        MODE_FILE ∧
      (testOut.img.inode_table.getD (testOut.new_inode_num - 1) zeroInode).links = 1 ∧
      (testOut.img.inode_table.getD (testOut.new_inode_num - 1) zeroInode).size_bytes =
        testFile.length ∧
      (testOut.img.inode_table.getD (testOut.new_inode_num - 1) zeroInode).atime =
        5 ∧
      (testOut.img.inode_table.getD (testOut.new_inode_num - 1) zeroInode).mtime =
        5 ∧
      (testOut.img.inode_table.getD (testOut.new_inode_num - 1) zeroInode).ctime =
        5 ∧
      (∃ dbm', allocDataBlocks testImage.data_bitmap
        (testImage.sb.data_region_blocks % M32) (testImage.sb.data_region_start % M32)
        ((testFile.length + BS - 1) / BS) = some (bl, dbm')) ∧
      bl.length = (testFile.length + BS - 1) / BS ∧
      (testOut.img.inode_table.getD (testOut.new_inode_num - 1) zeroInode).direct =
        bl ++ List.replicate (DIRECT_MAX - (testFile.length + BS - 1) / BS) 0 ∧
      inode_crc_finalize
          (testOut.img.inode_table.getD (testOut.new_inode_num - 1) zeroInode) =
        testOut.img.inode_table.getD (testOut.new_inode_num - 1) zeroInode ∧
      2 ≤ idx ∧ idx < 64 ∧
      readLE32 (testImage.data_region.getD (rootBlockIdxOf testImage) []) (64 * idx) = 0 ∧
      (∀ j, 2 ≤ j → j < idx →
        readLE32 (testImage.data_region.getD (rootBlockIdxOf testImage) []) (64 * j)
          ≠ 0) ∧
      testOut.img.data_region.getD (rootBlockIdxOf testImage) [] =
        writeDirentAt (testImage.data_region.getD (rootBlockIdxOf testImage) []) idx
          (dirent_checksum_finalize
            { inode_no := testOut.new_inode_num, etype := 1,
              name := testName ++ List.replicate (58 - testName.length) 0,
              checksum := 0 }) ∧
      (testOut.img.inode_table.getD 0 zeroInode).links =
        (testImage.inode_table.getD 0 zeroInode).links + 1 ∧
      (testOut.img.inode_table.getD 0 zeroInode).size_bytes =
        (testImage.inode_table.getD 0 zeroInode).size_bytes + 64 ∧
      (testOut.img.inode_table.getD 0 zeroInode).mtime = 5 ∧
      inode_crc_finalize (testOut.img.inode_table.getD 0 zeroInode) =
        testOut.img.inode_table.getD 0 zeroInode :=
  c2_injection_postconditions testImage testFile testName 5 testTail testOut
    testImage_valid testRun_ok

theorem c7_witness : BitmapInv builtImage ∧ BitmapInv testOut.img :=
  ⟨c7_bitmap_invariant.1 180 128 0 0 [] builtImage rfl,
   c7_bitmap_invariant.2 testImage testFile testName 5 testTail testOut
     testImage_valid testImage_inv testRun_ok⟩

theorem c8_witness :
    ∃ (fb idx : Nat) (bl : List Nat),
      testOut.new_inode_num = fb + 1 ∧
      bl.length = (testFile.length + BS - 1) / BS ∧
      testOut.img.sb.magic = testImage.sb.magic ∧
      testOut.img.sb.version = testImage.sb.version ∧
      testOut.img.sb.block_size = testImage.sb.block_size ∧
      testOut.img.sb.total_blocks = testImage.sb.total_blocks ∧
      testOut.img.sb.inode_count = testImage.sb.inode_count ∧
      testOut.img.sb.inode_bitmap_start = testImage.sb.inode_bitmap_start ∧
      testOut.img.sb.inode_bitmap_blocks = testImage.sb.inode_bitmap_blocks ∧
      testOut.img.sb.data_bitmap_start = testImage.sb.data_bitmap_start ∧
      testOut.img.sb.data_bitmap_blocks = testImage.sb.data_bitmap_blocks ∧
      testOut.img.sb.inode_table_start = testImage.sb.inode_table_start ∧
      testOut.img.sb.inode_table_blocks = testImage.sb.inode_table_blocks ∧
      testOut.img.sb.data_region_start = testImage.sb.data_region_start ∧
      testOut.img.sb.data_region_blocks = testImage.sb.data_region_blocks ∧
      testOut.img.sb.root_inode = testImage.sb.root_inode ∧
      testOut.img.sb.flags = testImage.sb.flags ∧
      testOut.img.sb.mtime_epoch = 5 ∧
      2 ≤ idx ∧ idx < 64 ∧
      (∀ o, o < 128 →
        (testOut.img.data_region.getD (rootBlockIdxOf testImage) []).getD o 0 =
          (testImage.data_region.getD (rootBlockIdxOf testImage) []).getD o 0) ∧
      (∀ o, o < 64 * idx ∨ 64 * idx + 64 ≤ o →
        (testOut.img.data_region.getD (rootBlockIdxOf testImage) []).getD o 0 =
          (testImage.data_region.getD (rootBlockIdxOf testImage) []).getD o 0) ∧
      (∀ s, s ≠ 0 → s ≠ fb →
        testOut.img.inode_table.getD s zeroInode =
          testImage.inode_table.getD s zeroInode) ∧
      (∀ b, b ≠ rootBlockIdxOf testImage →
        (testImage.sb.data_region_start + b) ∉ bl →
        testOut.img.data_region.getD b [] = testImage.data_region.getD b []) :=
  c8_frame_effects testImage testFile testName 5 testTail testOut
    testImage_valid testRun_ok

end MiniVSFS
